import Mathlib

/-!
# tent/cmd/transifex_download.go : the download command

A shallow embedding of `downloadRun`: the per-component worker loop (cache
check, fetch, language selection, raw-format validation, `parser.Parse`,
comparison logging), the materialization walk over `parser.Categories()`,
and the hand-over between the worker goroutine and the main path through the
`quit` channel.

Everything `downloadRun` calls outside its own file (the file system, the
Transifex client, `encoding/json`, the resource parser, `utils.WriteCmp`,
the colour functions) is a field of an environment record `Env`; the state
they act on is threaded explicitly through `World`.  Every call is recorded
as an `Event`, in program order, so that statements about which calls happen
and in what order are statements about `World.events`.
-/

namespace Tent

/-! ## Data model -/

/-- Modelled from the spec: the `Resource` of package `component`, of which
`downloadRun` reads only the field `Slug`. -/
structure Resource where
  slug : String
deriving DecidableEq, Repr

/-- Modelled from the spec: a `component.Component` yielded by `r.All("en")`,
identified by a path and carrying its `Resource()`. -/
structure Component where
  path : String
  resource : Resource
deriving DecidableEq, Repr

/-- A Go `map[string]string`, as an association list with distinct keys. -/
abbrev Translations := List (String × String)

/-- The two-result lookup `v, ok := m[k]`. -/
def Translations.get? (m : Translations) (k : String) : Option String :=
  (m.find? (fun kv => kv.1 = k)).map (fun kv => kv.2)

/-- The one-result lookup `m[k]`: the zero value when the key is missing. -/
def Translations.get (m : Translations) (k : String) : String :=
  (m.get? k).getD ""

/-- Modelled from the spec: the Checks-node of a subcategory (`sub.Checks()`),
with its `Path()` and `HasChildren()`. -/
structure Checks where
  path : String
  hasChildren : Bool

/-- Modelled from the spec: an item (`sub.Item(name)`), with its `Path()`. -/
structure Item where
  path : String

/-- Modelled from the spec: a subcategory (`cat.Sub(name)`), with its
`Path()`, `Checks()`, `ItemNames()` and `Item(name)`. -/
structure Subcategory where
  path : String
  checks : Checks
  itemNames : List String
  item : String → Item

/-- Modelled from the spec: a category, with its `Path()`, `Subcategories()`
(the names) and `Sub(name)`. -/
structure Category where
  path : String
  subcategories : List String
  sub : String → Subcategory

/-- A node of the content tree as `printCmp` receives it (the interface
`component.Component`). -/
inductive Node where
  | category (cat : Category)
  | subcategory (sub : Subcategory)
  | checks (check : Checks)
  | item (it : Item)

/-- The method `Path()` of a node. -/
def Node.path : Node → String
  | Node.category cat => cat.path
  | Node.subcategory sub => sub.path
  | Node.checks check => check.path
  | Node.item it => it.path

/-- The value of `parser.Categories()` in the order in which the two `range`
loops of lines 135-136 yield it. -/
abbrev Tree := List (List Category)

/-- Every call `downloadRun` makes to a collaborator, in program order. -/
inductive Event where
  | stat (path : String)
  | download (slug : String)
  | create (path : String)
  | encode (path : String) (text : String)
  | openFile (path : String)
  | decode (path : String)
  | writeFile (path : String) (text : String)
  | decodeTarget (text : String)
  | parse (cmp : Component) (code : String)
  | log (msg : String)
  | writeCmp (node : Node)

/-- The three outcomes the code distinguishes after `os.Stat`. -/
inductive StatResult where
  | found
  | notExist
  | failed (err : String)
deriving DecidableEq, Repr

/-- The state `downloadRun` acts on: the files under `config.Root`, the
resource parser, the counter `count` and the record of calls made so far. -/
structure World (P : Type) where
  files : String → Option String
  parser : P
  count : Nat
  events : List Event

/-- The collaborators of `downloadRun`.  A `...Fault` field gives the error a
call returns, `none` meaning that it succeeds. -/
structure Env (P : Type) where
  /-- The value of `config.Root`. -/
  root : String
  /-- The function `filepath.Join`. -/
  join : String → String → String
  /-- An `os.Stat` error other than "does not exist". -/
  statFault : String → Option String
  /-- The method `client.DownloadTranslations`. -/
  download : String → Except String Translations
  /-- The error of `os.OpenFile(path, O_WRONLY|O_CREATE, 0644)`. -/
  createFault : String → Option String
  /-- The text `json.Encoder.Encode` writes for a translation set. -/
  encode : Translations → String
  /-- The error of `Encode`, with the bytes that reached the file. -/
  encodeFault : String → Option (String × String)
  /-- The error of `os.Open`. -/
  openFault : String → Option String
  /-- The result of `json.Decoder.Decode` into a `map[string]string`. -/
  decode : String → Except String Translations
  /-- The error of `ioutil.WriteFile`, with what it leaves in the file
  (`none`: the file is as it was). -/
  writeFault : String → String → Option (String × Option String)
  /-- The error of `json.Decoder.Decode` into a `[]map[string]string`. -/
  decodeTarget : String → Option String
  /-- The method `parser.Parse`: the new parser state and the error. -/
  parse : P → Component → String → P × Option String
  /-- The method `parser.Categories`. -/
  categories : P → Tree
  /-- The error of `utils.WriteCmp(config.Root, cmp)`, which may differ from
  one call to the next: the first argument is the number of calls made
  before this one. -/
  writeCmp : Nat → Node → Option String
  /-- The colour functions of `fatih/color`. -/
  red : String → String
  green : String → String

variable {P : Type}

/-- The constant `lang` of the worker. -/
def lang : String := "zh-Hant"

/-- The expression `lang[:2]`. -/
def langCode : String := lang.take 2

/-- Record a call. -/
def World.emit (w : World P) (e : Event) : World P :=
  { w with events := w.events ++ [e] }

/-- The call `log.Printf` (or `log.Println`) with its formatted message. -/
def World.logf (w : World P) (msg : String) : World P :=
  w.emit (Event.log msg)

/-- The statement `count++` of line 62. -/
def World.tick (w : World P) : World P :=
  { w with count := w.count + 1 }

/-- Replace the content of one file. -/
def World.setFile (w : World P) (path : String) (text : String) : World P :=
  { w with files := fun q => if q = path then some text else w.files q }

/-- The expression `filepath.Join(config.Root, resource.Slug)`. -/
def cachePath (env : Env P) (cmp : Component) : String :=
  env.join env.root cmp.resource.slug

/-- The call `os.Stat(path)` as the code classifies its error. -/
def stat (env : Env P) (w : World P) (path : String) : StatResult :=
  match env.statFault path with
  | some err => StatResult.failed err
  | none =>
    match w.files path with
    | some _ => StatResult.found
    | none => StatResult.notExist

/-! ## The worker loop -/

/-- Lines 68-97: the translation set of a component, fetched when the cache
file does not exist and read from it when it does.  `none` is the `continue`
of the loop. -/
def resolve (env : Env P) (cmp : Component) (w : World P) :
    World P × Option Translations :=
  let slug := cmp.resource.slug
  let path := cachePath env cmp
  let w := w.emit (Event.stat path)
  match stat env w path with
  | StatResult.notExist =>
    let w := w.emit (Event.download slug)
    match env.download slug with
    | Except.error err => (w.logf (slug ++ ": " ++ env.red err), none)
    | Except.ok translations =>
      let w := w.emit (Event.create path)
      match env.createFault path with
      | some err => (w.logf (slug ++ ": " ++ env.red err), none)
      | none =>
        let w := w.setFile path ""
        let w := w.emit (Event.encode path (env.encode translations))
        match env.encodeFault path with
        | some (err, written) =>
          ((w.setFile path written).logf (slug ++ ": " ++ env.red err), none)
        | none => (w.setFile path (env.encode translations), some translations)
  | StatResult.found =>
    let w := w.emit (Event.openFile path)
    match env.openFault path with
    | some err => (w.logf (slug ++ ": " ++ env.red err), none)
    | none =>
      let w := w.emit (Event.decode path)
      match env.decode ((w.files path).getD "") with
      | Except.error err => (w.logf (slug ++ ": " ++ env.red err), none)
      | Except.ok translations => (w, some translations)
  | StatResult.failed err => (w.logf (slug ++ ": " ++ env.red err), none)

/-- The call `ioutil.WriteFile(path, []byte(text), 0666)` of line 104 with the
logging of its error; the loop goes on in either case. -/
def dump (env : Env P) (cmp : Component) (text : String) (w : World P) : World P :=
  let path := env.join env.root cmp.resource.slug
  let w := w.emit (Event.writeFile path text)
  match env.writeFault path text with
  | none => w.setFile path text
  | some (err, left) =>
    let w := match left with
      | some bytes => w.setFile path bytes
      | none => w
    w.logf (cmp.resource.slug ++ " (" ++ lang ++ ") " ++ err)

/-- Lines 99-120: language selection, the plain-text write, raw-format
validation, `parser.Parse` and the comparison logging. -/
def select (env : Env P) (cmp : Component) (translations : Translations)
    (w : World P) : World P :=
  let slug := cmp.resource.slug
  match translations.get? lang with
  | none => w.logf (slug ++ ": " ++ lang ++ " not found")
  | some target =>
    let w := dump env cmp target w
    let w := w.emit (Event.decodeTarget target)
    match env.decodeTarget target with
    | some err => w.logf (slug ++ " (" ++ lang ++ ") " ++ err ++ "\n" ++ target)
    | none =>
      let w := w.emit (Event.parse cmp langCode)
      match env.parse w.parser cmp langCode with
      | (p, some err) =>
        { w with parser := p }.logf (slug ++ " (" ++ lang ++ ") " ++ err)
      | (p, none) =>
        let w := { w with parser := p }
        if target ≠ translations.get "en" then
          w.logf (env.green "translated" ++ " " ++ lang ++ " - " ++ slug)
        else
          w.logf (env.red "not translated" ++ " " ++ lang ++ " - " ++ slug)

/-- Lines 63-120: the body of one iteration after `count++`. -/
def body (env : Env P) (cmp : Component) (w : World P) : World P :=
  match resolve env cmp w with
  | (w, none) => w
  | (w, some translations) => select env cmp translations w

/-- Lines 62-120: one iteration of the loop. -/
def iterate (env : Env P) (cmp : Component) (w : World P) : World P :=
  body env cmp w.tick

/-- Lines 61-121: the loop `for _, cmp := range r.All("en")`. -/
def workerLoop (env : Env P) (cmps : List Component) (w : World P) : World P :=
  cmps.foldl (fun w cmp => iterate env cmp w) w

/-! ## Reading the record of calls -/

/-- The line that ends an iteration in which `parser.Parse` was called: its
error, or the verdict of the comparison with the English text. -/
def closingLine (env : Env P) (cmp : Component) (translations : Translations)
    (target : String) (outcome : Option String) : String :=
  match outcome with
  | some err => cmp.resource.slug ++ " (" ++ lang ++ ") " ++ err
  | none =>
    if target ≠ translations.get "en" then
      env.green "translated" ++ " " ++ lang ++ " - " ++ cmp.resource.slug
    else
      env.red "not translated" ++ " " ++ lang ++ " - " ++ cmp.resource.slug


/-- The messages logged, in order. -/
def logged : List Event → List String
  | [] => []
  | Event.log msg :: es => msg :: logged es
  | _ :: es => logged es

/-- The components `parser.Parse` was called on, with the language code. -/
def parseCalls : List Event → List (Component × String)
  | [] => []
  | Event.parse cmp code :: es => (cmp, code) :: parseCalls es
  | _ :: es => parseCalls es

/-- The slugs `client.DownloadTranslations` was called on. -/
def downloadCalls : List Event → List String
  | [] => []
  | Event.download slug :: es => slug :: downloadCalls es
  | _ :: es => downloadCalls es

/-- The writes of `ioutil.WriteFile`: path and text. -/
def fileWrites : List Event → List (String × String)
  | [] => []
  | Event.writeFile path text :: es => (path, text) :: fileWrites es
  | _ :: es => fileWrites es

/-- The paths `os.OpenFile` was asked to create. -/
def createCalls : List Event → List String
  | [] => []
  | Event.create path :: es => path :: createCalls es
  | _ :: es => createCalls es

/-- The nodes `utils.WriteCmp` was called on. -/
def writeCmpCalls : List Event → List Node
  | [] => []
  | Event.writeCmp node :: es => node :: writeCmpCalls es
  | _ :: es => writeCmpCalls es

/-! ## Materialization -/

/-- Lines 126-132: the closure `printCmp`. -/
def printCmp (env : Env P) (node : Node) (w : World P) : World P :=
  let outcome := env.writeCmp (writeCmpCalls w.events).length node
  let w := w.emit (Event.writeCmp node)
  match outcome with
  | some err => w.logf (node.path ++ " " ++ env.red err ++ "\n")
  | none => w.logf (node.path ++ " " ++ env.green "ok" ++ "\n")

/-- Lines 139-146: the body of the loop over the subcategory names. -/
def walkSub (env : Env P) (sub : Subcategory) (w : World P) : World P :=
  let w := printCmp env (Node.subcategory sub) w
  let check := sub.checks
  let w := if check.hasChildren then printCmp env (Node.checks check) w else w
  sub.itemNames.foldl (fun w i => printCmp env (Node.item (sub.item i)) w) w

/-- Lines 137-147: the body of the loop over the categories. -/
def walkCat (env : Env P) (cat : Category) (w : World P) : World P :=
  let w := printCmp env (Node.category cat) w
  cat.subcategories.foldl (fun w s => walkSub env (cat.sub s) w) w

/-- Lines 135-149: the two nested `range` loops over `parser.Categories()`. -/
def walk (env : Env P) (tree : Tree) (w : World P) : World P :=
  tree.foldl (fun w cats => cats.foldl (fun w cat => walkCat env cat w) w) w

/-- The message of line 134. -/
def savingMsg (count : Nat) : String :=
  "\n\n***** Saving " ++ toString count ++ " files *****\n\n"

/-- Lines 134-149: what the main path does once it has received on `quit`. -/
def materialize (env : Env P) (w : World P) : World P :=
  let w := w.logf (savingMsg w.count)
  walk env (env.categories w.parser) w

/-- Lines 48-150 when no interrupt arrives: the worker runs the whole loop,
its deferred function sends on `quit`, and the main path materializes. -/
def downloadRun (env : Env P) (cmps : List Component) (w : World P) : World P :=
  materialize env (workerLoop env cmps w)

/-! ## The depth-first flattening of the specification -/

/-- The nodes of one subcategory: the subcategory, its Checks-node if it has
children, then its items in the order of their names. -/
def specSubNodes (sub : Subcategory) : List Node :=
  [Node.subcategory sub]
    ++ (if sub.checks.hasChildren = true then [Node.checks sub.checks] else [])
    ++ sub.itemNames.map (fun i => Node.item (sub.item i))

/-- The nodes of one category: the category, then the nodes of each of its
subcategories in the order of their names. -/
def specCatNodes (cat : Category) : List Node :=
  Node.category cat :: (cat.subcategories.map (fun s => specSubNodes (cat.sub s))).flatten

/-- The depth-first flattening of a content tree. -/
def specNodes (tree : Tree) : List Node :=
  (tree.flatten.map specCatNodes).flatten

/-- The line `printCmp` logs for the call numbered `k` on a node. -/
def specLine (env : Env P) (k : Nat) (node : Node) : String :=
  match env.writeCmp k node with
  | some err => node.path ++ " " ++ env.red err ++ "\n"
  | none => node.path ++ " " ++ env.green "ok" ++ "\n"

/-- The record of a walk that visits the given nodes in turn, the first call
of `utils.WriteCmp` being numbered `k`: for each node the call, then one log
line. -/
def specTrace (env : Env P) : Nat → List Node → List Event
  | _, [] => []
  | k, node :: nodes =>
    Event.writeCmp node :: Event.log (specLine env k node) :: specTrace env (k + 1) nodes

/-- The category a node is, if it is one. -/
def Node.asCategory : Node → Option Category
  | Node.category cat => some cat
  | _ => none

/-- The subcategory a node is, if it is one. -/
def Node.asSubcategory : Node → Option Subcategory
  | Node.subcategory sub => some sub
  | _ => none

/-- The Checks-node a node is, if it is one. -/
def Node.asChecks : Node → Option Checks
  | Node.checks check => some check
  | _ => none

/-- The item a node is, if it is one. -/
def Node.asItem : Node → Option Item
  | Node.item it => some it
  | _ => none

/-- The subcategories of a category, in the order of `Subcategories()`. -/
def Category.subs (cat : Category) : List Subcategory :=
  cat.subcategories.map cat.sub

/-- The items of a subcategory, in the order of `ItemNames()`. -/
def Subcategory.items (sub : Subcategory) : List Item :=
  sub.itemNames.map sub.item

/-- Every category of a tree, in order. -/
def Tree.cats (tree : Tree) : List Category :=
  tree.flatten

/-- Every subcategory of a tree, in order. -/
def Tree.subs (tree : Tree) : List Subcategory :=
  (tree.flatten.map Category.subs).flatten

/-- Every step of the iteration succeeds for a component that is fetched:
the fetch gives the translation set, the cache file is created and encoded
into, the set has the target language, the plain-text write succeeds, the
target text decodes as a list of records, and `parser.Parse` returns no
error. -/
def Succeeds (env : Env P) (cmp : Component) (translations : Translations)
    (target : String) : Prop :=
  env.download cmp.resource.slug = Except.ok translations ∧
  env.createFault (cachePath env cmp) = none ∧
  env.encodeFault (cachePath env cmp) = none ∧
  translations.get? lang = some target ∧
  env.writeFault (cachePath env cmp) target = none ∧
  env.decodeTarget target = none ∧
  ∀ p, (env.parse p cmp langCode).2 = none

/-- The line that ends the iteration of a component for which every step
succeeds: the verdict of the comparison. -/
def successLine (env : Env P) (cmp : Component) : String :=
  match env.download cmp.resource.slug with
  | Except.ok translations => closingLine env cmp translations (translations.get lang) none
  | Except.error _ => ""

/-! ## The worker goroutine and the main path

`downloadRun` starts the loop in a goroutine and blocks in `<-quit`.  Two
senders exist for the unbuffered channel `quit`: the function the worker
defers (`quit <- nil`) and the `os/signal` package, which `signal.Notify`
makes deliver `os.Interrupt` there without blocking.  The runs of the two
goroutines are the interleavings of the actions below. -/

/-- Where the main path stands. -/
inductive MainPhase where
  /-- Blocked in `<-quit` (line 124). -/
  | waiting
  /-- Past the receive, before line 134. -/
  | saving
  /-- Inside the loops of lines 135-149. -/
  | walking
  /-- Returned from `downloadRun`: the process ends and the worker with it. -/
  | returned
deriving DecidableEq, Repr

/-- The state of a run of the two goroutines. -/
structure Run (P : Type) where
  world : World P
  /-- How many iterations of the loop the worker has begun. -/
  started : Nat
  /-- Whether the worker is inside an iteration. -/
  inFlight : Bool
  phase : MainPhase
  /-- How many components had been started when the interrupt was delivered
  on `quit`. -/
  interruptAt : Option Nat
  /-- The calls of `parser.Parse` made before line 135 read
  `parser.Categories()`. -/
  treeFrom : Option (List (Component × String))
  /-- The tree the walk ranges over. -/
  tree : Tree

/-- The atomic actions of the two goroutines and of the signal handler. -/
inductive Action where
  /-- Worker: the `range` of line 61 yields the next component; `count++`. -/
  | start
  /-- Worker: lines 63-120 for the component begun last. -/
  | finish
  /-- Worker: the loop is over and the deferred `quit <- nil` is received. -/
  | notify
  /-- The interrupt is delivered on `quit` and received by the main path. -/
  | interrupt
  /-- Main: line 134 and the evaluation of `parser.Categories()`. -/
  | save
  /-- Main: the loops of lines 135-149, then the return. -/
  | walkAll
deriving DecidableEq, Repr

/-- The state before the goroutine is started. -/
def Run.init (w : World P) : Run P :=
  { world := w, started := 0, inFlight := false, phase := MainPhase.waiting,
    interruptAt := none, treeFrom := none, tree := [] }

/-- One action; `none` when it cannot happen in this state.  The worker's
actions have no condition on the interrupt: the loop of lines 61-121 never
reads `quit`. -/
def Run.step (env : Env P) (cmps : List Component) (s : Run P) :
    Action → Option (Run P)
  | Action.start =>
    if s.phase ≠ MainPhase.returned ∧ s.inFlight = false ∧ s.started < cmps.length then
      some { s with world := s.world.tick,
                    started := s.started + 1, inFlight := true }
    else none
  | Action.finish =>
    if s.phase ≠ MainPhase.returned ∧ s.inFlight = true then
      match cmps[s.started - 1]? with
      | some cmp => some { s with world := body env cmp s.world, inFlight := false }
      | none => none
    else none
  | Action.notify =>
    if s.phase = MainPhase.waiting ∧ s.inFlight = false ∧ s.started = cmps.length then
      some { s with phase := MainPhase.saving }
    else none
  | Action.interrupt =>
    if s.phase = MainPhase.waiting then
      some { s with phase := MainPhase.saving, interruptAt := some s.started }
    else none
  | Action.save =>
    if s.phase = MainPhase.saving then
      some { s with world := s.world.logf (savingMsg s.world.count),
                    phase := MainPhase.walking,
                    treeFrom := some (parseCalls s.world.events),
                    tree := env.categories s.world.parser }
    else none
  | Action.walkAll =>
    if s.phase = MainPhase.walking then
      some { s with world := walk env s.tree s.world, phase := MainPhase.returned }
    else none

/-- A sequence of actions from a state. -/
def Run.exec (env : Env P) (cmps : List Component) : Run P → List Action → Option (Run P)
  | s, [] => some s
  | s, a :: as =>
    match Run.step env cmps s a with
    | some t => Run.exec env cmps t as
    | none => none

/-- What holds of every state of a run that began in the world `w`. -/
def Run.Inv (cmps : List Component) (w : World P) (s : Run P) : Prop :=
  s.started ≤ cmps.length ∧
  (∀ K, s.interruptAt = some K → K ≤ s.started) ∧
  (∀ call ∈ parseCalls s.world.events,
    call ∈ parseCalls w.events ∨ call ∈ (cmps.take s.started).map (fun cmp => (cmp, "zh"))) ∧
  (∀ calls, s.treeFrom = some calls → ∀ call ∈ calls,
    call ∈ parseCalls w.events ∨ call ∈ (cmps.take s.started).map (fun cmp => (cmp, "zh"))) ∧
  (s.interruptAt = none → s.phase ≠ MainPhase.waiting →
    s.started = cmps.length ∧ s.inFlight = false) ∧
  (s.inFlight = true → 0 < s.started)

/-! ## A model of `encoding/json` for the two shapes the command decodes

`Decoder.Decode` reads the first JSON value of its input and stores it in the
target.  For the targets `map[string]string` and `[]map[string]string` it
returns no error exactly when that value is well formed and has the shape of
the target, `null` being accepted wherever a value stands.  The functions
below recognise those shapes; the wording of the errors is not reproduced. -/

namespace Json

/-- The white space of JSON. -/
def isSpace (c : Char) : Bool :=
  c = ' ' || c = '\t' || c = '\r' || c = '\n'

/-- Drop leading white space. -/
def skipSpace : List Char → List Char
  | [] => []
  | c :: cs => if isSpace c then skipSpace cs else c :: cs

/-- The value of a hexadecimal digit. -/
def hexDigit (c : Char) : Option Nat :=
  if '0' ≤ c ∧ c ≤ '9' then some (c.toNat - '0'.toNat)
  else if 'a' ≤ c ∧ c ≤ 'f' then some (c.toNat - 'a'.toNat + 10)
  else if 'A' ≤ c ∧ c ≤ 'F' then some (c.toNat - 'A'.toNat + 10)
  else none

/-- The number written by four hexadecimal digits. -/
def hex4 (a b c d : Char) : Option Nat :=
  match hexDigit a, hexDigit b, hexDigit c, hexDigit d with
  | some a, some b, some c, some d => some (((a * 16 + b) * 16 + c) * 16 + d)
  | _, _, _, _ => none

/-- The character a one-letter escape stands for. -/
def escape (c : Char) : Option Char :=
  if c = '"' then some '"'
  else if c = '\\' then some '\\'
  else if c = '/' then some '/'
  else if c = 'b' then some (Char.ofNat 8)
  else if c = 'f' then some (Char.ofNat 12)
  else if c = 'n' then some '\n'
  else if c = 'r' then some '\r'
  else if c = 't' then some '\t'
  else none

/-- The text of a string literal whose opening quote has been read, with the
input after its closing quote.  `acc` holds the characters read so far, last
first; the first argument bounds the number of characters and escapes read.
An escaped surrogate pair is one character; a surrogate without its other
half is U+FFFD. -/
def stringBody : Nat → List Char → List Char → Option (String × List Char)
  | 0, _, _ => none
  | _ + 1, [], _ => none
  | fuel + 1, c :: cs, acc =>
    if c = '"' then some (String.mk acc.reverse, cs)
    else if c = '\\' then
      match cs with
      | [] => none
      | e :: rest =>
        if e = 'u' then
          match rest with
          | a :: b :: c2 :: d :: rest2 =>
            match hex4 a b c2 d with
            | none => none
            | some n =>
              if 0xD800 ≤ n ∧ n < 0xDC00 then
                match rest2 with
                | s1 :: s2 :: a2 :: b2 :: c3 :: d2 :: rest3 =>
                  match (if s1 = '\\' ∧ s2 = 'u' then hex4 a2 b2 c3 d2 else none) with
                  | some m =>
                    if 0xDC00 ≤ m ∧ m < 0xE000 then
                      stringBody fuel rest3
                        (Char.ofNat (0x10000 + (n - 0xD800) * 0x400 + (m - 0xDC00)) :: acc)
                    else stringBody fuel rest2 (Char.ofNat 0xFFFD :: acc)
                  | none => stringBody fuel rest2 (Char.ofNat 0xFFFD :: acc)
                | _ => stringBody fuel rest2 (Char.ofNat 0xFFFD :: acc)
              else if 0xDC00 ≤ n ∧ n < 0xE000 then
                stringBody fuel rest2 (Char.ofNat 0xFFFD :: acc)
              else stringBody fuel rest2 (Char.ofNat n :: acc)
          | _ => none
        else
          match escape e with
          | some x => stringBody fuel rest (x :: acc)
          | none => none
    else if c.toNat < 0x20 then none
    else stringBody fuel cs (c :: acc)

/-- A string literal or `null` at the head of the input; `null` leaves the
zero value of a Go string. -/
def stringOrNull : List Char → Option (String × List Char)
  | [] => none
  | c :: cs =>
    if c = '"' then stringBody cs.length cs []
    else if (c :: cs).take 4 = ['n', 'u', 'l', 'l'] then some ("", cs.drop 3)
    else none

/-- Store a key as a Go map does: a later value replaces an earlier one. -/
def put (m : Translations) (key val : String) : Translations :=
  m.filter (fun kv => kv.1 ≠ key) ++ [(key, val)]

/-- The members of an object after its opening brace or after a comma, up to
the closing brace, with the input after it.  The first argument bounds the
number of members read. -/
def members : Nat → List Char → Translations → Option (Translations × List Char)
  | 0, _, _ => none
  | fuel + 1, cs, acc =>
    match skipSpace cs with
    | [] => none
    | q :: cs1 =>
      if q = '"' then
        match stringBody cs1.length cs1 [] with
        | none => none
        | some (key, cs2) =>
          match skipSpace cs2 with
          | [] => none
          | colon :: cs3 =>
            if colon = ':' then
              match stringOrNull (skipSpace cs3) with
              | none => none
              | some (val, cs4) =>
                match skipSpace cs4 with
                | [] => none
                | sep :: cs5 =>
                  if sep = ',' then members fuel cs5 (put acc key val)
                  else if sep = '}' then some (put acc key val, cs5)
                  else none
            else none
      else none

/-- An object of strings whose opening brace has been read. -/
def object (cs : List Char) : Option (Translations × List Char) :=
  match skipSpace cs with
  | [] => none
  | c :: rest => if c = '}' then some ([], rest) else members cs.length cs []

/-- An object of strings or `null` at the head of the input. -/
def objectOrNull : List Char → Option (Translations × List Char)
  | [] => none
  | c :: cs =>
    if c = '{' then object cs
    else if (c :: cs).take 4 = ['n', 'u', 'l', 'l'] then some ([], cs.drop 3)
    else none

/-- The elements of an array after its opening bracket or after a comma, up
to the closing bracket.  The first argument bounds the number of elements. -/
def elements : Nat → List Char → Bool
  | 0, _ => false
  | fuel + 1, cs =>
    match objectOrNull (skipSpace cs) with
    | none => false
    | some (_, cs1) =>
      match skipSpace cs1 with
      | [] => false
      | sep :: cs2 =>
        if sep = ',' then elements fuel cs2
        else if sep = ']' then true
        else false

/-- The error, if any, of `Decode` into a `map[string]string`, and the map. -/
def decodeMap (text : String) : Except String Translations :=
  match skipSpace text.data with
  | [] => Except.error "EOF"
  | cs =>
    match objectOrNull cs with
    | some (m, _) => Except.ok m
    | none => Except.error "json: the input is not an object of strings"

/-- The error, if any, of `Decode` into a `[]map[string]string`. -/
def decodeRecords (text : String) : Option String :=
  match skipSpace text.data with
  | [] => some "EOF"
  | c :: cs =>
    if (c :: cs).take 4 = ['n', 'u', 'l', 'l'] then none
    else if c = '[' then
      match skipSpace cs with
      | [] => some "unexpected EOF"
      | d :: _ =>
        if d = ']' then none
        else if elements cs.length cs then none
        else some "json: the input is not a list of objects of strings"
    else some "json: the input is not a list of objects of strings"

/-- The character of a string as `Encode` writes it. -/
def escapeChar (c : Char) : List Char :=
  if c = '"' then ['\\', '"']
  else if c = '\\' then ['\\', '\\']
  else if c = '\n' then ['\\', 'n']
  else if c = '\r' then ['\\', 'r']
  else if c = '\t' then ['\\', 't']
  else if c.toNat < 0x20 ∨ c = '<' ∨ c = '>' ∨ c = '&' ∨ c.toNat = 0x2028 ∨ c.toNat = 0x2029 then
    ['\\', 'u'] ++ ((Nat.toDigits 16 (0x10000 + c.toNat)).drop 1)
  else [c]

/-- A string as `Encode` writes it. -/
def quote (s : String) : String :=
  String.mk (['"'] ++ (s.data.map escapeChar).flatten ++ ['"'])

/-- Insert a pair before the first pair with a greater key. -/
def insertSorted (kv : String × String) : Translations → Translations
  | [] => [kv]
  | x :: xs => if kv.1.data < x.1.data then kv :: x :: xs else x :: insertSorted kv xs

/-- The text `Encode` writes for a map: the keys in increasing order, and a
line feed at the end. -/
def encodeMap (m : Translations) : String :=
  let sorted := m.foldr insertSorted []
  "\x7b" ++ ",".intercalate (sorted.map (fun kv => quote kv.1 ++ ":" ++ quote kv.2)) ++ "\x7d\n"

end Json

/-! ## A concrete environment

The environment below puts the JSON model in the place of `encoding/json`, a
table in the place of the translation service and a list of the components
parsed so far in the place of the resource parser.  No call fails in it
unless the table lacks the slug; the variants after it make one call fail. -/

namespace Sample

/-- A subcategory without checks and items. -/
def bareSub : Subcategory :=
  { path := "", checks := { path := "", hasChildren := false }, itemNames := [],
    item := fun _ => { path := "" } }

/-- The category a parsed component stands for. -/
def leaf (cmp : Component) : Category :=
  { path := cmp.path, subcategories := [], sub := fun _ => bareSub }

/-- The environment in which every local call succeeds. -/
def env (remote : List (String × Translations)) : Env (List Component) :=
  { root := "cache"
    join := fun dir name => dir ++ "/" ++ name
    statFault := fun _ => none
    download := fun slug =>
      match remote.find? (fun entry => entry.1 = slug) with
      | some entry => Except.ok entry.2
      | none => Except.error "404 Not Found"
    createFault := fun _ => none
    encode := Json.encodeMap
    encodeFault := fun _ => none
    openFault := fun _ => none
    decode := Json.decodeMap
    writeFault := fun _ _ => none
    decodeTarget := Json.decodeRecords
    parse := fun parsed cmp _ => (parsed ++ [cmp], none)
    categories := fun parsed => [parsed.map leaf]
    writeCmp := fun _ _ => none
    red := fun text => text
    green := fun text => text }

/-- The same environment with a disk on which no file can be created. -/
def readOnlyEnv (remote : List (String × Translations)) : Env (List Component) :=
  { env remote with createFault := fun _ => some "permission denied" }

/-- The same environment with a parser that rejects every component. -/
def strictEnv (remote : List (String × Translations)) : Env (List Component) :=
  { env remote with parse := fun parsed _ _ => (parsed, some "no such category") }

/-- The state before a run, given the files under the root. -/
def world (files : List (String × String)) : World (List Component) :=
  { files := fun path => (files.find? (fun entry => entry.1 = path)).map (fun entry => entry.2)
    parser := []
    count := 0
    events := [] }

/-- The component with slug `intro`. -/
def intro : Component := { path := "intro.md", resource := { slug := "intro" } }

/-- The component with slug `faq`. -/
def faq : Component := { path := "faq.md", resource := { slug := "faq" } }

/-- The component with slug `about`. -/
def about : Component := { path := "about.md", resource := { slug := "about" } }

/-- A translation set whose texts are lists of records and differ. -/
def introSet : Translations :=
  [("en", "[\x7b\"title\":\"Hello\"\x7d]"), ("zh-Hant", "[\x7b\"title\":\"你好\"\x7d]")]

/-- A translation set whose target text is the English text. -/
def faqSet : Translations :=
  [("en", "[\x7b\"title\":\"FAQ\"\x7d]"), ("zh-Hant", "[\x7b\"title\":\"FAQ\"\x7d]")]

/-- The cache file of `intro`: the JSON text of `introSet`. -/
def introFile : String :=
  "\x7b\"en\":\"[\\u007b\\\"title\\\":\\\"Hello\\\"\\u007d]\",\"zh-Hant\":\"[\\u007b\\\"title\\\":\\\"你好\\\"\\u007d]\"\x7d"

/-- The cache file of `faq`: the JSON text of `faqSet`. -/
def faqFile : String :=
  "\x7b\"en\":\"[\\u007b\\\"title\\\":\\\"FAQ\\\"\\u007d]\",\"zh-Hant\":\"[\\u007b\\\"title\\\":\\\"FAQ\\\"\\u007d]\"\x7d"

/-- A cache file without the target language. -/
def aboutFile : String :=
  "\x7b\"en\":\"[]\"\x7d"

/-- A translation service that has `intro` and `faq`. -/
def service : List (String × Translations) :=
  [("intro", introSet), ("faq", faqSet)]

/-- A run in which the interrupt is delivered when one of two components has
been started: the worker finishes it, starts and finishes the second, and
only then does the main path read the tree. -/
def lateSave : List Action :=
  [Action.start, Action.interrupt, Action.finish, Action.start, Action.finish, Action.save]

/-- The state the run `lateSave` ends in. -/
def lateSaved : Run (List Component) :=
  (Run.exec (env service) [intro, faq] (Run.init (world [])) lateSave).getD
    (Run.init (world []))

end Sample

/-! ## Reading the record of calls: basic facts -/

@[simp] theorem emit_events (w : World P) (e : Event) :
    (w.emit e).events = w.events ++ [e] := rfl

@[simp] theorem emit_files (w : World P) (e : Event) : (w.emit e).files = w.files := rfl

@[simp] theorem parser_of_emit (w : World P) (e : Event) : (w.emit e).parser = w.parser := rfl

@[simp] theorem emit_count (w : World P) (e : Event) : (w.emit e).count = w.count := rfl

@[simp] theorem logf_events (w : World P) (msg : String) :
    (w.logf msg).events = w.events ++ [Event.log msg] := rfl

@[simp] theorem logf_files (w : World P) (msg : String) : (w.logf msg).files = w.files := rfl

@[simp] theorem parser_of_logf (w : World P) (msg : String) : (w.logf msg).parser = w.parser := rfl

@[simp] theorem logf_count (w : World P) (msg : String) : (w.logf msg).count = w.count := rfl

@[simp] theorem setFile_events (w : World P) (path text : String) :
    (w.setFile path text).events = w.events := rfl

@[simp] theorem parser_of_setFile (w : World P) (path text : String) :
    (w.setFile path text).parser = w.parser := rfl

@[simp] theorem setFile_count (w : World P) (path text : String) :
    (w.setFile path text).count = w.count := rfl

@[simp] theorem setFile_files (w : World P) (path text q : String) :
    (w.setFile path text).files q = if q = path then some text else w.files q := rfl

@[simp] theorem tick_events (w : World P) : w.tick.events = w.events := rfl

@[simp] theorem tick_files (w : World P) : w.tick.files = w.files := rfl

@[simp] theorem parser_of_tick (w : World P) : w.tick.parser = w.parser := rfl

@[simp] theorem tick_count (w : World P) : w.tick.count = w.count + 1 := rfl

@[simp] theorem logged_append (xs ys : List Event) :
    logged (xs ++ ys) = logged xs ++ logged ys := by
  induction xs with
  | nil => rfl
  | cons e es ih => cases e <;> simp [logged, ih]

@[simp] theorem parseCalls_append (xs ys : List Event) :
    parseCalls (xs ++ ys) = parseCalls xs ++ parseCalls ys := by
  induction xs with
  | nil => rfl
  | cons e es ih => cases e <;> simp [parseCalls, ih]

@[simp] theorem downloadCalls_append (xs ys : List Event) :
    downloadCalls (xs ++ ys) = downloadCalls xs ++ downloadCalls ys := by
  induction xs with
  | nil => rfl
  | cons e es ih => cases e <;> simp [downloadCalls, ih]

@[simp] theorem fileWrites_append (xs ys : List Event) :
    fileWrites (xs ++ ys) = fileWrites xs ++ fileWrites ys := by
  induction xs with
  | nil => rfl
  | cons e es ih => cases e <;> simp [fileWrites, ih]

@[simp] theorem createCalls_append (xs ys : List Event) :
    createCalls (xs ++ ys) = createCalls xs ++ createCalls ys := by
  induction xs with
  | nil => rfl
  | cons e es ih => cases e <;> simp [createCalls, ih]

@[simp] theorem writeCmpCalls_append (xs ys : List Event) :
    writeCmpCalls (xs ++ ys) = writeCmpCalls xs ++ writeCmpCalls ys := by
  induction xs with
  | nil => rfl
  | cons e es ih => cases e <;> simp [writeCmpCalls, ih]

@[simp] theorem stat_emit (env : Env P) (w : World P) (e : Event) (path : String) :
    stat env (w.emit e) path = stat env w path := rfl

@[simp] theorem stat_tick (env : Env P) (w : World P) (path : String) :
    stat env w.tick path = stat env w path := rfl

theorem langCode_eq : langCode = "zh" := by decide

/-- The loop goes from one component to the next whatever the iteration did. -/
theorem workerLoop_cons (env : Env P) (cmp : Component) (rest : List Component)
    (w : World P) :
    workerLoop env (cmp :: rest) w = workerLoop env rest (iterate env cmp w) := rfl

/-- Lines 68-97 never call `parser.Parse` nor `ioutil.WriteFile`. -/
theorem resolve_calls (env : Env P) (cmp : Component) (w : World P) :
    parseCalls (resolve env cmp w).1.events = parseCalls w.events ∧
    fileWrites (resolve env cmp w).1.events = fileWrites w.events ∧
    (resolve env cmp w).1.parser = w.parser ∧
    (resolve env cmp w).1.count = w.count := by
  unfold resolve
  simp only []
  split
  · split
    · simp [parseCalls, fileWrites]
    · split
      · simp [parseCalls, fileWrites]
      · split <;> simp [parseCalls, fileWrites]
  · split
    · simp [parseCalls, fileWrites]
    · split <;> simp [parseCalls, fileWrites]
  · simp [parseCalls, fileWrites]

/-- Line 104 calls `ioutil.WriteFile` once, on the cache path, and does not
call `parser.Parse`. -/
theorem dump_calls (env : Env P) (cmp : Component) (text : String) (w : World P) :
    parseCalls (dump env cmp text w).events = parseCalls w.events ∧
    fileWrites (dump env cmp text w).events
      = fileWrites w.events ++ [(cachePath env cmp, text)] ∧
    (dump env cmp text w).parser = w.parser ∧
    (dump env cmp text w).count = w.count := by
  unfold dump
  simp only []
  split
  · simp [parseCalls, fileWrites, cachePath]
  · split <;> simp [parseCalls, fileWrites, cachePath]

/-- What lines 99-120 add to the calls of `parser.Parse`. -/
theorem select_parseCalls (env : Env P) (cmp : Component) (translations : Translations)
    (w : World P) :
    parseCalls (select env cmp translations w).events
      = parseCalls w.events ++
        (match translations.get? lang with
         | none => []
         | some target =>
           match env.decodeTarget target with
           | some _ => []
           | none => [(cmp, langCode)]) := by
  unfold select
  simp only []
  split
  · simp [parseCalls]
  · rename_i target htarget
    have hd := (dump_calls env cmp target w).1
    split
    · simp [parseCalls, hd]
    · split
      · simp [parseCalls, hd]
      · split <;> simp [parseCalls, hd]

/-- C10: for a component whose translation set was resolved, `parser.Parse` is
called, with the language code "zh", exactly when the set has the key
"zh-Hant" and its value decodes as a list of records.  When the key is absent
the iteration logs "<slug>: zh-Hant not found" and does nothing else: no file
write, no `Parse`.  When the value does not decode, it logs the slug, the
language, the decode error and the raw text, and does not call `Parse`.  In
every case the loop goes on with the next component. -/
theorem parse_iff_target_decodes (env : Env P) (cmp : Component) (w : World P)
    (translations : Translations)
    (hres : (resolve env cmp w.tick).2 = some translations) :
    (parseCalls (iterate env cmp w).events = parseCalls w.events ++ [(cmp, "zh")] ↔
      ∃ target, translations.get? "zh-Hant" = some target ∧ env.decodeTarget target = none) ∧
    ((¬ ∃ target, translations.get? "zh-Hant" = some target ∧ env.decodeTarget target = none) →
      parseCalls (iterate env cmp w).events = parseCalls w.events) ∧
    (translations.get? "zh-Hant" = none →
      iterate env cmp w
        = (resolve env cmp w.tick).1.logf (cmp.resource.slug ++ ": " ++ "zh-Hant" ++ " not found") ∧
      fileWrites (iterate env cmp w).events = fileWrites w.events ∧
      parseCalls (iterate env cmp w).events = parseCalls w.events) ∧
    (∀ target err, translations.get? "zh-Hant" = some target →
      env.decodeTarget target = some err →
      logged (iterate env cmp w).events
        = logged (dump env cmp target (resolve env cmp w.tick).1).events
          ++ [cmp.resource.slug ++ " (" ++ "zh-Hant" ++ ") " ++ err ++ "\n" ++ target] ∧
      parseCalls (iterate env cmp w).events = parseCalls w.events) ∧
    (∀ rest, workerLoop env (cmp :: rest) w = workerLoop env rest (iterate env cmp w)) := by
  have hbody : iterate env cmp w = select env cmp translations (resolve env cmp w.tick).1 := by
    unfold iterate body
    generalize resolve env cmp w.tick = r at hres
    obtain ⟨w1, o⟩ := r
    simp only at hres
    subst hres
    rfl
  have hcalls := resolve_calls env cmp w.tick
  have hp := select_parseCalls env cmp translations (resolve env cmp w.tick).1
  rw [hcalls.1, tick_events] at hp
  have hlang : lang = "zh-Hant" := rfl
  have hcode := langCode_eq
  refine ⟨?_, ?_, ?_, ?_, fun rest => rfl⟩
  · rw [hbody, hp, hlang, hcode]
    constructor
    · intro h
      cases hg : translations.get? "zh-Hant" with
      | none => simp [hg] at h
      | some target =>
        cases hd : env.decodeTarget target with
        | none => exact ⟨target, rfl, hd⟩
        | some err => simp [hg, hd] at h
    · rintro ⟨target, hg, hd⟩
      simp [hg, hd]
  · intro hno
    rw [hbody, hp, hlang]
    cases hg : translations.get? "zh-Hant" with
    | none => simp
    | some target =>
      cases hd : env.decodeTarget target with
      | none => exact absurd ⟨target, hg, hd⟩ hno
      | some err => simp [hd]
  · intro hg
    have hsel : select env cmp translations (resolve env cmp w.tick).1
        = (resolve env cmp w.tick).1.logf (cmp.resource.slug ++ ": " ++ "zh-Hant" ++ " not found") := by
      unfold select
      simp only [hlang, hg]
    refine ⟨by rw [hbody, hsel], ?_, ?_⟩
    · rw [hbody, hsel]
      simp [fileWrites, hcalls.2.1]
    · rw [hbody, hp, hlang, hg]
      simp
  · intro target err hg hd
    constructor
    · rw [hbody]
      unfold select
      simp only [hlang, hg, hd]
      simp [logged]
    · rw [hbody, hp, hlang, hg]
      simp [hd]

/-- An iteration whose translation set was resolved goes on with lines
99-120. -/
theorem iterate_of_resolved (env : Env P) (cmp : Component) (w : World P)
    (translations : Translations)
    (hres : (resolve env cmp w.tick).2 = some translations) :
    iterate env cmp w = select env cmp translations (resolve env cmp w.tick).1 := by
  unfold iterate body
  generalize resolve env cmp w.tick = r at hres
  obtain ⟨w1, o⟩ := r
  simp only at hres
  subst hres
  rfl

/-- An iteration whose translation set was not resolved ends with lines
68-97. -/
theorem iterate_of_skipped (env : Env P) (cmp : Component) (w : World P)
    (hres : (resolve env cmp w.tick).2 = none) :
    iterate env cmp w = (resolve env cmp w.tick).1 := by
  unfold iterate body
  generalize resolve env cmp w.tick = r at hres
  obtain ⟨w1, o⟩ := r
  simp only at hres
  subst hres
  rfl

/-- After line 104 nothing in the iteration touches the files. -/
theorem select_files (env : Env P) (cmp : Component) (translations : Translations)
    (w : World P) :
    (select env cmp translations w).files
      = match translations.get? lang with
        | none => w.files
        | some target => (dump env cmp target w).files := by
  unfold select
  simp only []
  split
  · rfl
  · split
    · rfl
    · split <;> (try split) <;> rfl

/-- The events of lines 68-97 when the translation set is resolved: the
`os.Stat`, then either the fetch with the creation of the cache file or the
reading of the cache file. -/
theorem resolve_events (env : Env P) (cmp : Component) (w : World P)
    (translations : Translations)
    (hres : (resolve env cmp w).2 = some translations) :
    ∃ cacheCalls, (resolve env cmp w).1.events
        = w.events ++ Event.stat (cachePath env cmp) :: cacheCalls ∧
      (Event.decode (cachePath env cmp) ∈ cacheCalls ∨
        Event.encode (cachePath env cmp) (env.encode translations) ∈ cacheCalls) := by
  unfold resolve at hres ⊢
  simp only [] at hres ⊢
  cases hs : stat env (w.emit (Event.stat (cachePath env cmp))) (cachePath env cmp) with
  | notExist =>
    simp only [hs] at hres ⊢
    cases hd : env.download cmp.resource.slug with
    | error err => simp [hd] at hres
    | ok tr =>
      simp only [hd] at hres ⊢
      cases hc : env.createFault (cachePath env cmp) with
      | some err => simp [hc] at hres
      | none =>
        simp only [hc] at hres ⊢
        cases he : env.encodeFault (cachePath env cmp) with
        | some pair => simp [he] at hres
        | none =>
          simp only [he, Option.some.injEq] at hres ⊢
          subst hres
          exact ⟨[Event.download cmp.resource.slug, Event.create (cachePath env cmp),
            Event.encode (cachePath env cmp) (env.encode tr)], by simp, by simp⟩
  | found =>
    simp only [hs] at hres ⊢
    cases ho : env.openFault (cachePath env cmp) with
    | some err => simp [ho] at hres
    | none =>
      simp only [ho, emit_files] at hres ⊢
      cases hd : env.decode ((w.files (cachePath env cmp)).getD "") with
      | error err => simp [hd] at hres
      | ok tr =>
        simp only [hd]
        exact ⟨[Event.openFile (cachePath env cmp), Event.decode (cachePath env cmp)],
          by simp, by simp⟩
  | failed err => simp [hs] at hres

/-- Line 104 records its call first. -/
theorem dump_events (env : Env P) (cmp : Component) (text : String) (w : World P) :
    ∃ notes, (dump env cmp text w).events
      = w.events ++ Event.writeFile (cachePath env cmp) text :: notes := by
  unfold dump
  simp only []
  cases hw : env.writeFault (env.join env.root cmp.resource.slug) text with
  | none => exact ⟨[], by simp [cachePath]⟩
  | some pair =>
    obtain ⟨err, left⟩ := pair
    cases left with
    | none => exact ⟨[Event.log (cmp.resource.slug ++ " (" ++ lang ++ ") " ++ err)],
        by simp [cachePath]⟩
    | some bytes => exact ⟨[Event.log (cmp.resource.slug ++ " (" ++ lang ++ ") " ++ err)],
        by simp [cachePath]⟩

/-- Lines 107-120 when the target text decodes: the decode, `parser.Parse`,
one log line. -/
theorem select_of_decoded (env : Env P) (cmp : Component) (translations : Translations)
    (w : World P) (target : String)
    (htarget : translations.get? lang = some target)
    (hdec : env.decodeTarget target = none) :
    (select env cmp translations w).events
      = (dump env cmp target w).events
        ++ [Event.decodeTarget target, Event.parse cmp langCode,
            Event.log (closingLine env cmp translations target
              (env.parse w.parser cmp langCode).2)] ∧
    (select env cmp translations w).parser = (env.parse w.parser cmp langCode).1 := by
  have hpar := (dump_calls env cmp target w).2.2.1
  unfold select
  simp only [htarget, hdec, parser_of_emit, hpar]
  cases hp : env.parse w.parser cmp langCode with
  | mk p outcome =>
    cases outcome with
    | some err => simp [closingLine]
    | none =>
      by_cases hne : target ≠ translations.get "en"
      · simp [closingLine, hne]
      · simp [closingLine, hne]

/-- Lines 107-111 when the target text does not decode: the decode and one
log line. -/
theorem select_of_malformed (env : Env P) (cmp : Component) (translations : Translations)
    (w : World P) (target err : String)
    (htarget : translations.get? lang = some target)
    (hdec : env.decodeTarget target = some err) :
    (select env cmp translations w).events
      = (dump env cmp target w).events
        ++ [Event.decodeTarget target,
            Event.log (cmp.resource.slug ++ " (" ++ lang ++ ") " ++ err ++ "\n" ++ target)] := by
  unfold select
  simp [htarget, hdec]

/-- What lines 99-120 add to the calls of `ioutil.WriteFile`. -/
theorem select_fileWrites (env : Env P) (cmp : Component) (translations : Translations)
    (w : World P) :
    fileWrites (select env cmp translations w).events
      = fileWrites w.events ++
        (match translations.get? lang with
         | none => []
         | some target => [(cachePath env cmp, target)]) := by
  cases hg : translations.get? lang with
  | none =>
    unfold select
    simp [hg, fileWrites]
  | some target =>
    have hd := (dump_calls env cmp target w).2.1
    cases hdec : env.decodeTarget target with
    | none =>
      rw [(select_of_decoded env cmp translations w target hg hdec).1]
      simp [fileWrites, hd]
    | some err =>
      rw [select_of_malformed env cmp translations w target err hg hdec]
      simp [fileWrites, hd]

/-- C4: for a component whose resolved translation set has the target
language "zh-Hant", the iteration calls `ioutil.WriteFile` with the target
text on the path of the cache entry, after the cache was read or written; when
that write succeeds the file holds exactly the target text at the end of the
iteration.  Nothing is assumed of the raw-format decode and of
`parser.Parse`, which come later. -/
theorem plain_text_overwrites_cache (env : Env P) (cmp : Component) (w : World P)
    (translations : Translations) (target : String)
    (hres : (resolve env cmp w.tick).2 = some translations)
    (htarget : translations.get? "zh-Hant" = some target) :
    (∃ cacheCalls later,
      (iterate env cmp w).events
        = w.events ++ Event.stat (cachePath env cmp) :: cacheCalls
          ++ Event.writeFile (cachePath env cmp) target :: later ∧
      (Event.decode (cachePath env cmp) ∈ cacheCalls ∨
        Event.encode (cachePath env cmp) (env.encode translations) ∈ cacheCalls)) ∧
    fileWrites (iterate env cmp w).events
      = fileWrites w.events ++ [(cachePath env cmp, target)] ∧
    (env.writeFault (cachePath env cmp) target = none →
      (iterate env cmp w).files (cachePath env cmp) = some target) := by
  have hbody := iterate_of_resolved env cmp w translations hres
  have hlang : lang = "zh-Hant" := rfl
  have htarget2 : translations.get? lang = some target := htarget
  obtain ⟨cacheCalls, hev, hmem⟩ := resolve_events env cmp w.tick translations hres
  rw [tick_events] at hev
  obtain ⟨notes, hdump⟩ := dump_events env cmp target (resolve env cmp w.tick).1
  have hsel : ∃ tail, (select env cmp translations (resolve env cmp w.tick).1).events
      = (dump env cmp target (resolve env cmp w.tick).1).events ++ tail := by
    cases hdec : env.decodeTarget target with
    | none => exact ⟨_, (select_of_decoded env cmp translations _ target htarget2 hdec).1⟩
    | some err => exact ⟨_, select_of_malformed env cmp translations _ target err htarget2 hdec⟩
  obtain ⟨tail, hsel⟩ := hsel
  refine ⟨⟨cacheCalls, notes ++ tail, ?_, hmem⟩, ?_, ?_⟩
  · rw [hbody, hsel, hdump, hev]
    simp
  · have h1 := (resolve_calls env cmp w.tick).2.1
    rw [hbody, select_fileWrites, h1, htarget2, tick_events]
  · intro hok
    rw [hbody, select_files, htarget2]
    simp only []
    unfold dump
    simp only []
    have hok2 : env.writeFault (env.join env.root cmp.resource.slug) target = none := hok
    rw [hok2]
    simp [cachePath]

/-- The witness of C4: the cache file of `intro` holds the JSON mapping before
the iteration and the bare target text after it. -/
theorem plain_text_overwrites_cache_witness :
    (resolve (Sample.env []) Sample.intro
      (Sample.world [("cache/intro", Sample.introFile)]).tick).2 = some Sample.introSet ∧
    Sample.introSet.get? "zh-Hant" = some "[\x7b\"title\":\"你好\"\x7d]" ∧
    (iterate (Sample.env []) Sample.intro
      (Sample.world [("cache/intro", Sample.introFile)])).files "cache/intro"
        = some "[\x7b\"title\":\"你好\"\x7d]" :=
  ⟨by decide, by decide,
    (plain_text_overwrites_cache (Sample.env []) Sample.intro
      (Sample.world [("cache/intro", Sample.introFile)]) Sample.introSet
      "[\x7b\"title\":\"你好\"\x7d]" (by decide) (by decide)).2.2 (by rfl)⟩

/-- The witness of C10: the cached translation set of `intro` has a target
text that decodes, and `parser.Parse` is called on `intro` with "zh". -/
theorem parse_iff_target_decodes_witness :
    (resolve (Sample.env []) Sample.intro
      (Sample.world [("cache/intro", Sample.introFile)]).tick).2 = some Sample.introSet ∧
    parseCalls (iterate (Sample.env []) Sample.intro
      (Sample.world [("cache/intro", Sample.introFile)])).events = [(Sample.intro, "zh")] :=
  ⟨by decide,
    ((parse_iff_target_decodes (Sample.env []) Sample.intro
      (Sample.world [("cache/intro", Sample.introFile)]) Sample.introSet (by decide)).1).2
      ⟨"[\x7b\"title\":\"你好\"\x7d]", by decide, by decide⟩⟩

/-- What lines 99-120 add to the calls of `client.DownloadTranslations`:
nothing. -/
theorem select_downloadCalls (env : Env P) (cmp : Component) (translations : Translations)
    (w : World P) :
    downloadCalls (select env cmp translations w).events = downloadCalls w.events := by
  have hdump : ∀ text, downloadCalls (dump env cmp text w).events = downloadCalls w.events := by
    intro text
    unfold dump
    simp only []
    split
    · simp [downloadCalls]
    · split <;> simp [downloadCalls]
  cases hg : translations.get? lang with
  | none =>
    unfold select
    simp [hg, downloadCalls]
  | some target =>
    cases hdec : env.decodeTarget target with
    | none =>
      rw [(select_of_decoded env cmp translations w target hg hdec).1]
      simp [downloadCalls, hdump]
    | some err =>
      rw [select_of_malformed env cmp translations w target err hg hdec]
      simp [downloadCalls, hdump]

/-- Lines 68-97 when the cache file exists. -/
theorem resolve_of_found (env : Env P) (cmp : Component) (w : World P)
    (hstat : stat env w (cachePath env cmp) = StatResult.found) :
    resolve env cmp w
      = match env.openFault (cachePath env cmp) with
        | some err =>
          (((w.emit (Event.stat (cachePath env cmp))).emit
              (Event.openFile (cachePath env cmp))).logf
            (cmp.resource.slug ++ ": " ++ env.red err), none)
        | none =>
          match env.decode ((w.files (cachePath env cmp)).getD "") with
          | Except.error err =>
            ((((w.emit (Event.stat (cachePath env cmp))).emit
                (Event.openFile (cachePath env cmp))).emit
                (Event.decode (cachePath env cmp))).logf
              (cmp.resource.slug ++ ": " ++ env.red err), none)
          | Except.ok translations =>
            (((w.emit (Event.stat (cachePath env cmp))).emit
                (Event.openFile (cachePath env cmp))).emit
                (Event.decode (cachePath env cmp)), some translations) := by
  unfold resolve
  simp only [stat_emit, hstat, emit_files]

/-- C2: when the cache path of a component exists as its iteration begins
(`os.Stat` returns no error), the iteration does not call
`client.DownloadTranslations`; it skips the component, with one log line,
when opening or decoding the file fails, and otherwise runs the rest of the
iteration on the translation set decoded from the file. -/
theorem cache_hit_never_fetches (env : Env P) (cmp : Component) (w : World P)
    (hstat : stat env w (cachePath env cmp) = StatResult.found) :
    downloadCalls (iterate env cmp w).events = downloadCalls w.events ∧
    ∃ content, w.files (cachePath env cmp) = some content ∧
      (∀ err, env.openFault (cachePath env cmp) = some err →
        iterate env cmp w
          = ((w.tick.emit (Event.stat (cachePath env cmp))).emit
              (Event.openFile (cachePath env cmp))).logf
              (cmp.resource.slug ++ ": " ++ env.red err)) ∧
      (env.openFault (cachePath env cmp) = none → ∀ err,
        env.decode content = Except.error err →
        iterate env cmp w
          = (((w.tick.emit (Event.stat (cachePath env cmp))).emit
              (Event.openFile (cachePath env cmp))).emit
              (Event.decode (cachePath env cmp))).logf
              (cmp.resource.slug ++ ": " ++ env.red err)) ∧
      (env.openFault (cachePath env cmp) = none → ∀ translations,
        env.decode content = Except.ok translations →
        iterate env cmp w
          = select env cmp translations
              (((w.tick.emit (Event.stat (cachePath env cmp))).emit
                (Event.openFile (cachePath env cmp))).emit
                (Event.decode (cachePath env cmp)))) := by
  have hstat2 : stat env w.tick (cachePath env cmp) = StatResult.found := hstat
  have hr := resolve_of_found env cmp w.tick hstat2
  have hcontent : ∃ content, w.files (cachePath env cmp) = some content := by
    unfold stat at hstat
    cases hf : env.statFault (cachePath env cmp) with
    | some err => simp [hf] at hstat
    | none =>
      cases hc : w.files (cachePath env cmp) with
      | none => simp [hf, hc] at hstat
      | some content => exact ⟨content, rfl⟩
  obtain ⟨content, hc⟩ := hcontent
  have hget : (w.tick.files (cachePath env cmp)).getD "" = content := by simp [hc]
  rw [hget] at hr
  have hopen : (∀ err, env.openFault (cachePath env cmp) = some err →
        iterate env cmp w
          = ((w.tick.emit (Event.stat (cachePath env cmp))).emit
              (Event.openFile (cachePath env cmp))).logf
              (cmp.resource.slug ++ ": " ++ env.red err)) := by
    intro err ho
    unfold iterate body
    rw [hr, ho]
  have hbad : (env.openFault (cachePath env cmp) = none → ∀ err,
        env.decode content = Except.error err →
        iterate env cmp w
          = (((w.tick.emit (Event.stat (cachePath env cmp))).emit
              (Event.openFile (cachePath env cmp))).emit
              (Event.decode (cachePath env cmp))).logf
              (cmp.resource.slug ++ ": " ++ env.red err)) := by
    intro ho err hd
    unfold iterate body
    rw [hr, ho, hd]
  have hgood : (env.openFault (cachePath env cmp) = none → ∀ translations,
        env.decode content = Except.ok translations →
        iterate env cmp w
          = select env cmp translations
              (((w.tick.emit (Event.stat (cachePath env cmp))).emit
                (Event.openFile (cachePath env cmp))).emit
                (Event.decode (cachePath env cmp)))) := by
    intro ho translations hd
    unfold iterate body
    rw [hr, ho, hd]
  refine ⟨?_, content, hc, hopen, hbad, hgood⟩
  cases ho : env.openFault (cachePath env cmp) with
  | some err => rw [hopen err ho]; simp [downloadCalls]
  | none =>
    cases hd : env.decode content with
    | error err => rw [hbad ho err hd]; simp [downloadCalls]
    | ok translations => rw [hgood ho translations hd, select_downloadCalls]; simp [downloadCalls]

/-- The witness of C2: the cache file of `intro` exists, and no call of
`client.DownloadTranslations` is made. -/
theorem cache_hit_never_fetches_witness :
    stat (Sample.env []) (Sample.world [("cache/intro", Sample.introFile)])
      (cachePath (Sample.env []) Sample.intro) = StatResult.found ∧
    downloadCalls (iterate (Sample.env []) Sample.intro
      (Sample.world [("cache/intro", Sample.introFile)])).events = [] :=
  ⟨by decide,
    (cache_hit_never_fetches (Sample.env []) Sample.intro
      (Sample.world [("cache/intro", Sample.introFile)]) (by decide)).1⟩

/-- Lines 68-83 when the cache file does not exist. -/
theorem resolve_of_absent (env : Env P) (cmp : Component) (w : World P)
    (hstat : stat env w (cachePath env cmp) = StatResult.notExist) :
    resolve env cmp w
      = match env.download cmp.resource.slug with
        | Except.error err =>
          (((w.emit (Event.stat (cachePath env cmp))).emit
              (Event.download cmp.resource.slug)).logf
            (cmp.resource.slug ++ ": " ++ env.red err), none)
        | Except.ok translations =>
          match env.createFault (cachePath env cmp) with
          | some err =>
            ((((w.emit (Event.stat (cachePath env cmp))).emit
                (Event.download cmp.resource.slug)).emit
                (Event.create (cachePath env cmp))).logf
              (cmp.resource.slug ++ ": " ++ env.red err), none)
          | none =>
            match env.encodeFault (cachePath env cmp) with
            | some (err, written) =>
              (((((((w.emit (Event.stat (cachePath env cmp))).emit
                  (Event.download cmp.resource.slug)).emit
                  (Event.create (cachePath env cmp))).setFile (cachePath env cmp) "").emit
                  (Event.encode (cachePath env cmp) (env.encode translations))).setFile
                  (cachePath env cmp) written).logf
                (cmp.resource.slug ++ ": " ++ env.red err), none)
            | none =>
              ((((((w.emit (Event.stat (cachePath env cmp))).emit
                  (Event.download cmp.resource.slug)).emit
                  (Event.create (cachePath env cmp))).setFile (cachePath env cmp) "").emit
                  (Event.encode (cachePath env cmp) (env.encode translations))).setFile
                  (cachePath env cmp) (env.encode translations), some translations) := by
  unfold resolve
  simp only [stat_emit, hstat]

/-- C9, as the code has it: for a component whose cache entry is absent and
whose `client.DownloadTranslations` call succeeds, a failure to create the
cache file or to encode into it is logged and ends the iteration, as a fetch
failure does: the component does not reach language selection, so there is no
plain-text write and no `parser.Parse` call for it.  The failure is not fatal
to the run: the loop goes on with the next component. -/
theorem cache_write_failure_skips (env : Env P) (cmp : Component) (w : World P)
    (translations : Translations) (err : String)
    (hstat : stat env w (cachePath env cmp) = StatResult.notExist)
    (hfetch : env.download cmp.resource.slug = Except.ok translations)
    (hfail : env.createFault (cachePath env cmp) = some err ∨
      (env.createFault (cachePath env cmp) = none ∧
        ∃ written, env.encodeFault (cachePath env cmp) = some (err, written))) :
    logged (iterate env cmp w).events
      = logged w.events ++ [cmp.resource.slug ++ ": " ++ env.red err] ∧
    downloadCalls (iterate env cmp w).events
      = downloadCalls w.events ++ [cmp.resource.slug] ∧
    fileWrites (iterate env cmp w).events = fileWrites w.events ∧
    parseCalls (iterate env cmp w).events = parseCalls w.events ∧
    (iterate env cmp w).parser = w.parser ∧
    (∀ rest, workerLoop env (cmp :: rest) w = workerLoop env rest (iterate env cmp w)) := by
  have hstat2 : stat env w.tick (cachePath env cmp) = StatResult.notExist := hstat
  have hr := resolve_of_absent env cmp w.tick hstat2
  rw [hfetch] at hr
  simp only [] at hr
  rcases hfail with hc | ⟨hc, written, he⟩
  · rw [hc] at hr
    simp only [] at hr
    refine ⟨?_, ?_, ?_, ?_, ?_, fun rest => rfl⟩ <;>
      (unfold iterate body; rw [hr]; simp [logged, downloadCalls, fileWrites, parseCalls])
  · rw [hc, he] at hr
    simp only [] at hr
    refine ⟨?_, ?_, ?_, ?_, ?_, fun rest => rfl⟩ <;>
      (unfold iterate body; rw [hr]; simp [logged, downloadCalls, fileWrites, parseCalls])

/-- The witness of C9: on a disk where no file can be created, the fetched
component `intro` is logged and skipped. -/
theorem cache_write_failure_skips_witness :
    stat (Sample.readOnlyEnv [("intro", Sample.introSet)]) (Sample.world [])
      (cachePath (Sample.readOnlyEnv [("intro", Sample.introSet)]) Sample.intro)
        = StatResult.notExist ∧
    logged (iterate (Sample.readOnlyEnv [("intro", Sample.introSet)]) Sample.intro
      (Sample.world [])).events = ["intro: permission denied"] :=
  ⟨by decide,
    (cache_write_failure_skips (Sample.readOnlyEnv [("intro", Sample.introSet)]) Sample.intro
      (Sample.world []) Sample.introSet "permission denied" (by decide) (by rfl)
      (Or.inl (by rfl))).1⟩

/-- C9 as stated fails: the fetch of `intro` succeeds and every later step
would succeed (the target language is there, its text decodes, the parser
accepts), but the cache file cannot be created, and the component does not
proceed to language selection: no plain-text write, no `parser.Parse`. -/
theorem cache_write_failure_not_continued :
    stat (Sample.readOnlyEnv [("intro", Sample.introSet)]) (Sample.world [])
      (cachePath (Sample.readOnlyEnv [("intro", Sample.introSet)]) Sample.intro)
        = StatResult.notExist ∧
    (Sample.readOnlyEnv [("intro", Sample.introSet)]).download "intro"
      = Except.ok Sample.introSet ∧
    (Sample.readOnlyEnv [("intro", Sample.introSet)]).createFault "cache/intro"
      = some "permission denied" ∧
    Sample.introSet.get? "zh-Hant" = some "[\x7b\"title\":\"你好\"\x7d]" ∧
    (Sample.readOnlyEnv [("intro", Sample.introSet)]).decodeTarget
      "[\x7b\"title\":\"你好\"\x7d]" = none ∧
    ((Sample.readOnlyEnv [("intro", Sample.introSet)]).parse [] Sample.intro "zh").2 = none ∧
    parseCalls (iterate (Sample.readOnlyEnv [("intro", Sample.introSet)]) Sample.intro
      (Sample.world [])).events = [] ∧
    fileWrites (iterate (Sample.readOnlyEnv [("intro", Sample.introSet)]) Sample.intro
      (Sample.world [])).events = [] := by
  refine ⟨by decide, by rfl, by rfl, by decide, by decide, by rfl, by decide, by decide⟩

/-- C8, as the code has it: for a component whose target text decodes as a
list of records, `parser.Parse` is called before the comparison with the
English text and whatever that comparison gives, and the parser is left as
`Parse` left it.  The iteration then logs one line: the error of `Parse` if
it returned one, and otherwise "translated" if the target text differs from
`translations["en"]` and "not translated" if it does not. -/
theorem comparison_follows_parse (env : Env P) (cmp : Component) (w : World P)
    (translations : Translations) (target : String)
    (hres : (resolve env cmp w.tick).2 = some translations)
    (htarget : translations.get? "zh-Hant" = some target)
    (hdec : env.decodeTarget target = none) :
    ∃ line,
      (iterate env cmp w).events
        = (dump env cmp target (resolve env cmp w.tick).1).events
          ++ [Event.decodeTarget target, Event.parse cmp "zh", Event.log line] ∧
      (iterate env cmp w).parser = (env.parse w.parser cmp "zh").1 ∧
      (∀ err, (env.parse w.parser cmp "zh").2 = some err →
        line = cmp.resource.slug ++ " (" ++ "zh-Hant" ++ ") " ++ err) ∧
      ((env.parse w.parser cmp "zh").2 = none → target ≠ translations.get "en" →
        line = env.green "translated" ++ " " ++ "zh-Hant" ++ " - " ++ cmp.resource.slug) ∧
      ((env.parse w.parser cmp "zh").2 = none → target = translations.get "en" →
        line = env.red "not translated" ++ " " ++ "zh-Hant" ++ " - " ++ cmp.resource.slug) := by
  have hbody := iterate_of_resolved env cmp w translations hres
  have hsel := select_of_decoded env cmp translations (resolve env cmp w.tick).1 target htarget hdec
  have hpar := (resolve_calls env cmp w.tick).2.2.1
  rw [hpar, parser_of_tick, langCode_eq] at hsel
  refine ⟨_, by rw [hbody]; exact hsel.1, by rw [hbody]; exact hsel.2, ?_, ?_, ?_⟩
  · intro err herr
    rw [herr]
    rfl
  · intro hok hne
    rw [hok]
    simp [closingLine, hne, lang]
  · intro hok heq
    rw [hok]
    simp [closingLine, heq, lang]

/-- The witness of C8: the cached texts of `intro` are lists of records that
differ, and the iteration logs "translated". -/
theorem comparison_follows_parse_witness :
    (resolve (Sample.env []) Sample.intro
      (Sample.world [("cache/intro", Sample.introFile)]).tick).2 = some Sample.introSet ∧
    Sample.introSet.get? "zh-Hant" = some "[\x7b\"title\":\"你好\"\x7d]" ∧
    (Sample.env []).decodeTarget "[\x7b\"title\":\"你好\"\x7d]" = none ∧
    logged (iterate (Sample.env []) Sample.intro
      (Sample.world [("cache/intro", Sample.introFile)])).events
        = ["translated zh-Hant - intro"] := by
  refine ⟨by decide, by decide, by decide, ?_⟩
  obtain ⟨line, hev, _, _, hline, _⟩ :=
    comparison_follows_parse (Sample.env []) Sample.intro
      (Sample.world [("cache/intro", Sample.introFile)]) Sample.introSet
      "[\x7b\"title\":\"你好\"\x7d]" (by decide) (by decide) (by decide)
  have hl := hline (by rfl) (by decide)
  rw [hev, hl, logged_append]
  decide

/-- C8 as stated fails on its own example: with the cache files
`\x7b"en":"Hello","zh-Hant":"你好"\x7d` for `intro` and
`\x7b"en":"FAQ","zh-Hant":"FAQ"\x7d` for `faq`, the target texts are not lists
of records, so both components are dropped at line 108: `parser.Parse` is not
called and neither "translated" nor "not translated" is logged.  And a
component that reaches `parser.Parse` and is rejected by it gets no
comparison line either. -/
theorem comparison_example_not_logged :
    parseCalls (workerLoop (Sample.env []) [Sample.intro, Sample.faq]
      (Sample.world
        [("cache/intro", "\x7b\"en\":\"Hello\",\"zh-Hant\":\"你好\"\x7d"),
         ("cache/faq", "\x7b\"en\":\"FAQ\",\"zh-Hant\":\"FAQ\"\x7d")])).events = [] ∧
    "translated zh-Hant - intro" ∉
      logged (workerLoop (Sample.env []) [Sample.intro, Sample.faq]
        (Sample.world
          [("cache/intro", "\x7b\"en\":\"Hello\",\"zh-Hant\":\"你好\"\x7d"),
           ("cache/faq", "\x7b\"en\":\"FAQ\",\"zh-Hant\":\"FAQ\"\x7d")])).events ∧
    "not translated zh-Hant - faq" ∉
      logged (workerLoop (Sample.env []) [Sample.intro, Sample.faq]
        (Sample.world
          [("cache/intro", "\x7b\"en\":\"Hello\",\"zh-Hant\":\"你好\"\x7d"),
           ("cache/faq", "\x7b\"en\":\"FAQ\",\"zh-Hant\":\"FAQ\"\x7d")])).events ∧
    parseCalls (iterate (Sample.strictEnv []) Sample.intro
      (Sample.world [("cache/intro", Sample.introFile)])).events = [(Sample.intro, "zh")] ∧
    logged (iterate (Sample.strictEnv []) Sample.intro
      (Sample.world [("cache/intro", Sample.introFile)])).events
        = ["intro (zh-Hant) no such category"] := by
  refine ⟨by decide, by decide, by decide, by decide, by decide⟩

/-! ## The materialization walk -/

/-- The record of one call of `printCmp`: the call of `utils.WriteCmp`, then
one log line. -/
theorem printCmp_events (env : Env P) (node : Node) (w : World P) :
    (printCmp env node w).events
      = w.events ++ specTrace env (writeCmpCalls w.events).length [node] := by
  unfold printCmp
  simp only [specTrace, specLine]
  cases env.writeCmp (writeCmpCalls w.events).length node <;> simp

/-- The record of a sequence of calls of `printCmp`. -/
theorem printAll_events (env : Env P) (nodes : List Node) (w : World P) :
    (nodes.foldl (fun w node => printCmp env node w) w).events
      = w.events ++ specTrace env (writeCmpCalls w.events).length nodes := by
  induction nodes generalizing w with
  | nil => simp [specTrace]
  | cons node nodes ih =>
    rw [List.foldl_cons, ih, printCmp_events]
    simp [specTrace, writeCmpCalls, List.append_assoc]

/-- Folding over a list of lists, each with a fold, is folding over their
concatenation. -/
theorem foldl_flatten_nodes {α : Type} (step : World P → Node → World P)
    (nodesOf : α → List Node) (xs : List α) (w : World P) :
    xs.foldl (fun w x => (nodesOf x).foldl step w) w
      = ((xs.map nodesOf).flatten).foldl step w := by
  induction xs generalizing w with
  | nil => rfl
  | cons x xs ih => simp [List.foldl_append, ih]

/-- Lines 139-146 visit the nodes of the subcategory in the order of the
specification. -/
theorem walkSub_eq (env : Env P) (sub : Subcategory) (w : World P) :
    walkSub env sub w
      = (specSubNodes sub).foldl (fun w node => printCmp env node w) w := by
  unfold walkSub specSubNodes
  cases h : sub.checks.hasChildren <;> simp [List.foldl_append, List.foldl_map, h]

/-- Lines 137-147 visit the nodes of the category in the order of the
specification. -/
theorem walkCat_eq (env : Env P) (cat : Category) (w : World P) :
    walkCat env cat w
      = (specCatNodes cat).foldl (fun w node => printCmp env node w) w := by
  unfold walkCat specCatNodes
  simp only [List.foldl_cons]
  have h := foldl_flatten_nodes (fun w node => printCmp env node w)
    (fun s => specSubNodes (cat.sub s)) cat.subcategories (printCmp env (Node.category cat) w)
  rw [← h]
  congr 1
  funext w s
  exact walkSub_eq env (cat.sub s) w

/-- Lines 135-149 visit the nodes of the tree in the order of the
specification. -/
theorem walk_eq (env : Env P) (tree : Tree) (w : World P) :
    walk env tree w = (specNodes tree).foldl (fun w node => printCmp env node w) w := by
  unfold walk specNodes
  have hinner : (fun (w : World P) (cats : List Category) =>
        cats.foldl (fun w cat => walkCat env cat w) w)
      = fun w cats => ((cats.map specCatNodes).flatten).foldl
          (fun w node => printCmp env node w) w := by
    funext w cats
    rw [← foldl_flatten_nodes]
    congr 1
    funext w cat
    exact walkCat_eq env cat w
  rw [hinner]
  induction tree generalizing w with
  | nil => rfl
  | cons cats tree ih => simp [List.foldl_append, ih]

/-- The calls of `utils.WriteCmp` in the record of a walk. -/
theorem writeCmpCalls_specTrace (env : Env P) (k : Nat) (nodes : List Node) :
    writeCmpCalls (specTrace env k nodes) = nodes := by
  induction nodes generalizing k with
  | nil => rfl
  | cons node nodes ih => simp [specTrace, writeCmpCalls, ih]

/-- The lines logged in the record of a walk: one for each node. -/
theorem logged_specTrace (env : Env P) (k : Nat) (nodes : List Node) :
    logged (specTrace env k nodes)
      = (nodes.enumFrom k).map (fun kn => specLine env kn.1 kn.2) := by
  induction nodes generalizing k with
  | nil => rfl
  | cons node nodes ih => simp [specTrace, logged, ih, List.enumFrom]

/-- Selecting from a concatenation is concatenating the selections. -/
theorem filterMap_flatten_map {α β γ : Type} (f : β → Option γ) (g : α → List β)
    (xs : List α) :
    ((xs.map g).flatten).filterMap f = (xs.map (fun x => (g x).filterMap f)).flatten := by
  induction xs with
  | nil => rfl
  | cons x xs ih => simp [List.filterMap_append, ih]

/-- Selecting with a function that always selects is mapping. -/
theorem filterMap_some_fun {α β : Type} (f : α → β) (xs : List α) :
    xs.filterMap (fun x => some (f x)) = xs.map f := by
  induction xs with
  | nil => rfl
  | cons x xs ih => simp [List.filterMap_cons, ih]

/-- The nodes of each kind among the nodes of a subcategory. -/
theorem specSubNodes_kinds (sub : Subcategory) :
    (specSubNodes sub).filterMap Node.asCategory = [] ∧
    (specSubNodes sub).filterMap Node.asSubcategory = [sub] ∧
    (specSubNodes sub).filterMap Node.asChecks
      = (if sub.checks.hasChildren = true then [sub.checks] else []) ∧
    (specSubNodes sub).filterMap Node.asItem = sub.items := by
  unfold specSubNodes Subcategory.items
  cases sub.checks.hasChildren <;>
    simp [List.filterMap_append, List.filterMap_map, Node.asCategory, Node.asSubcategory,
      Node.asChecks, Node.asItem, Function.comp_def, filterMap_some_fun]

/-- The nodes of each kind among the nodes of a category. -/
theorem specCatNodes_kinds (cat : Category) :
    (specCatNodes cat).filterMap Node.asCategory = [cat] ∧
    (specCatNodes cat).filterMap Node.asSubcategory = cat.subs ∧
    (specCatNodes cat).filterMap Node.asChecks
      = (cat.subs.filter (fun sub => sub.checks.hasChildren)).map (fun sub => sub.checks) ∧
    (specCatNodes cat).filterMap Node.asItem = (cat.subs.map Subcategory.items).flatten := by
  unfold specCatNodes Category.subs
  refine ⟨?_, ?_, ?_, ?_⟩
  · rw [List.filterMap_cons]
    simp only [Node.asCategory]
    rw [filterMap_flatten_map]
    simp [(specSubNodes_kinds _).1]
  · rw [List.filterMap_cons]
    simp only [Node.asSubcategory]
    rw [filterMap_flatten_map]
    simp only [(specSubNodes_kinds _).2.1]
    induction cat.subcategories with
    | nil => rfl
    | cons s ss ih => simpa using ih
  · rw [List.filterMap_cons]
    simp only [Node.asChecks]
    rw [filterMap_flatten_map]
    simp only [(specSubNodes_kinds _).2.2.1]
    induction cat.subcategories with
    | nil => rfl
    | cons s ss ih =>
      cases h : (cat.sub s).checks.hasChildren <;> simp [h, List.filter_cons] <;> simpa using ih
  · rw [List.filterMap_cons]
    simp only [Node.asItem]
    rw [filterMap_flatten_map]
    simp only [(specSubNodes_kinds _).2.2.2]
    simp [List.map_map, Function.comp_def]

/-- The nodes of each kind among the nodes of a tree. -/
theorem specNodes_kinds (tree : Tree) :
    (specNodes tree).filterMap Node.asCategory = tree.cats ∧
    (specNodes tree).filterMap Node.asSubcategory = tree.subs ∧
    (specNodes tree).filterMap Node.asChecks
      = (tree.subs.filter (fun sub => sub.checks.hasChildren)).map (fun sub => sub.checks) ∧
    (specNodes tree).filterMap Node.asItem = (tree.subs.map Subcategory.items).flatten := by
  unfold specNodes Tree.cats Tree.subs
  generalize tree.flatten = cats
  refine ⟨?_, ?_, ?_, ?_⟩
  · rw [filterMap_flatten_map]
    simp only [(specCatNodes_kinds _).1]
    induction cats with
    | nil => rfl
    | cons c cs ih => simpa using ih
  · rw [filterMap_flatten_map]
    simp only [(specCatNodes_kinds _).2.1]
  · rw [filterMap_flatten_map]
    simp only [(specCatNodes_kinds _).2.2.1]
    induction cats with
    | nil => rfl
    | cons c cs ih => simp [List.filter_append, ih]
  · rw [filterMap_flatten_map]
    simp only [(specCatNodes_kinds _).2.2.2]
    induction cats with
    | nil => rfl
    | cons c cs ih => simp [ih]

/-- C6: the nodes passed to `printCmp` during the walk are, in order, the
depth-first flattening of the tree: for each category in order the category,
then for each of its subcategories in the order of `Subcategories()` the
subcategory, its Checks-node exactly when `HasChildren()` holds, and its
items in the order of `ItemNames()`.  Among the nodes visited, the categories
are the categories of the tree, each once and in order; likewise the
subcategories, the Checks-nodes that have children, and the items.  The
sequence is a function of the tree alone. -/
theorem walk_visits_flattening (env : Env P) (tree : Tree) (w : World P) :
    writeCmpCalls (walk env tree w).events = writeCmpCalls w.events ++ specNodes tree ∧
    (specNodes tree).filterMap Node.asCategory = tree.cats ∧
    (specNodes tree).filterMap Node.asSubcategory = tree.subs ∧
    (specNodes tree).filterMap Node.asChecks
      = (tree.subs.filter (fun sub => sub.checks.hasChildren)).map (fun sub => sub.checks) ∧
    (specNodes tree).filterMap Node.asItem = (tree.subs.map Subcategory.items).flatten := by
  refine ⟨?_, specNodes_kinds tree⟩
  rw [walk_eq, printAll_events, writeCmpCalls_append, writeCmpCalls_specTrace]

/-- C7: whatever the calls of `utils.WriteCmp` return, the walk attempts the
same nodes in the same order (two environments, hence two assignments of
success and failure to the calls, give the same sequence), and its record is,
for each node in turn, the call of `utils.WriteCmp` followed by exactly one
log line: the path of the node with the error when the call fails, the path
with "ok" when it succeeds. -/
theorem walk_persistence_isolated (env other : Env P) (tree : Tree) (w : World P) :
    writeCmpCalls (walk env tree w).events = writeCmpCalls (walk other tree w).events ∧
    (walk env tree w).events
      = w.events ++ specTrace env (writeCmpCalls w.events).length (specNodes tree) ∧
    logged (walk env tree w).events
      = logged w.events ++
        ((specNodes tree).enumFrom (writeCmpCalls w.events).length).map
          (fun kn => specLine env kn.1 kn.2) ∧
    (∀ k node err, env.writeCmp k node = some err →
      specLine env k node = node.path ++ " " ++ env.red err ++ "\n") ∧
    (∀ k node, env.writeCmp k node = none →
      specLine env k node = node.path ++ " " ++ env.green "ok" ++ "\n") := by
  refine ⟨?_, ?_, ?_, ?_, ?_⟩
  · rw [walk_eq, walk_eq, printAll_events, printAll_events]
    simp [writeCmpCalls_specTrace]
  · rw [walk_eq, printAll_events]
  · rw [walk_eq, printAll_events, logged_append, logged_specTrace]
  · intro k node err h
    simp [specLine, h]
  · intro k node h
    simp [specLine, h]

/-! ## The cache files across the loop -/

/-- A path reported as not existing holds no file. -/
theorem files_of_notExist (env : Env P) (w : World P) (path : String)
    (hstat : stat env w path = StatResult.notExist) : w.files path = none := by
  unfold stat at hstat
  cases hf : env.statFault path with
  | some err => simp [hf] at hstat
  | none =>
    cases hc : w.files path with
    | none => rfl
    | some content => simp [hf, hc] at hstat

/-- Lines 68-97 call `ioutil.WriteFile` never, create a file only where none
was, and leave every file that was there as it was. -/
theorem resolve_frame (env : Env P) (cmp : Component) (w : World P) :
    ∃ new, (resolve env cmp w).1.events = w.events ++ new ∧
      fileWrites new = [] ∧
      (∀ path, w.files path ≠ none → path ∉ createCalls new) ∧
      (∀ path content, w.files path = some content →
        (resolve env cmp w).1.files path = some content) := by
  cases hs : stat env w (cachePath env cmp) with
  | found =>
    rw [resolve_of_found env cmp w hs]
    cases env.openFault (cachePath env cmp) with
    | some err =>
      exact ⟨[Event.stat (cachePath env cmp), Event.openFile (cachePath env cmp),
        Event.log (cmp.resource.slug ++ ": " ++ env.red err)],
        by simp, by simp [fileWrites], by simp [createCalls], by simp⟩
    | none =>
      cases env.decode ((w.files (cachePath env cmp)).getD "") with
      | error err =>
        exact ⟨[Event.stat (cachePath env cmp), Event.openFile (cachePath env cmp),
          Event.decode (cachePath env cmp),
          Event.log (cmp.resource.slug ++ ": " ++ env.red err)],
          by simp, by simp [fileWrites], by simp [createCalls], by simp⟩
      | ok translations =>
        exact ⟨[Event.stat (cachePath env cmp), Event.openFile (cachePath env cmp),
          Event.decode (cachePath env cmp)],
          by simp, by simp [fileWrites], by simp [createCalls], by simp⟩
  | failed err =>
    have hr : resolve env cmp w
        = ((w.emit (Event.stat (cachePath env cmp))).logf
            (cmp.resource.slug ++ ": " ++ env.red err), none) := by
      unfold resolve
      simp only [stat_emit, hs]
    rw [hr]
    exact ⟨[Event.stat (cachePath env cmp),
      Event.log (cmp.resource.slug ++ ": " ++ env.red err)],
      by simp, by simp [fileWrites], by simp [createCalls], by simp⟩
  | notExist =>
    have hnone := files_of_notExist env w (cachePath env cmp) hs
    have hnot : ∀ path, w.files path ≠ none → ¬ path = cachePath env cmp := by
      intro path h hp
      rw [hp] at h
      exact h hnone
    rw [resolve_of_absent env cmp w hs]
    cases env.download cmp.resource.slug with
    | error err =>
      exact ⟨[Event.stat (cachePath env cmp), Event.download cmp.resource.slug,
        Event.log (cmp.resource.slug ++ ": " ++ env.red err)],
        by simp, by simp [fileWrites], by simp [createCalls], by simp⟩
    | ok translations =>
      cases env.createFault (cachePath env cmp) with
      | some err =>
        exact ⟨[Event.stat (cachePath env cmp), Event.download cmp.resource.slug,
          Event.create (cachePath env cmp),
          Event.log (cmp.resource.slug ++ ": " ++ env.red err)],
          by simp, by simp [fileWrites],
          by simpa [createCalls] using hnot, by simp⟩
      | none =>
        cases env.encodeFault (cachePath env cmp) with
        | some pair =>
          obtain ⟨err, written⟩ := pair
          refine ⟨[Event.stat (cachePath env cmp), Event.download cmp.resource.slug,
            Event.create (cachePath env cmp),
            Event.encode (cachePath env cmp) (env.encode translations),
            Event.log (cmp.resource.slug ++ ": " ++ env.red err)],
            by simp, by simp [fileWrites],
            by simpa [createCalls] using hnot, ?_⟩
          intro path content h
          simp only [logf_files, setFile_files, emit_files]
          by_cases hp : path = cachePath env cmp
          · rw [hp, hnone] at h
            cases h
          · simp [hp, h]
        | none =>
          refine ⟨[Event.stat (cachePath env cmp), Event.download cmp.resource.slug,
            Event.create (cachePath env cmp),
            Event.encode (cachePath env cmp) (env.encode translations)],
            by simp, by simp [fileWrites],
            by simpa [createCalls] using hnot, ?_⟩
          intro path content h
          simp only [setFile_files, emit_files]
          by_cases hp : path = cachePath env cmp
          · rw [hp, hnone] at h
            cases h
          · simp [hp, h]

/-- Line 104 creates no file through `os.OpenFile`, changes no file but the
one at the cache path, and removes none. -/
theorem dump_frame (env : Env P) (cmp : Component) (text : String) (w : World P) :
    ∃ notes, (dump env cmp text w).events
        = w.events ++ Event.writeFile (cachePath env cmp) text :: notes ∧
      createCalls notes = [] ∧
      (∀ path, path ≠ cachePath env cmp → (dump env cmp text w).files path = w.files path) ∧
      (∀ path, w.files path ≠ none → (dump env cmp text w).files path ≠ none) := by
  unfold dump
  simp only []
  cases hw : env.writeFault (env.join env.root cmp.resource.slug) text with
  | none =>
    refine ⟨[], by simp [cachePath], rfl, ?_, ?_⟩
    · intro path hp
      simp [cachePath] at hp
      simp [hp]
    · intro path h
      simp only [setFile_files, emit_files]
      split <;> simp [h]
  | some pair =>
    obtain ⟨err, left⟩ := pair
    cases left with
    | none =>
      exact ⟨[Event.log (cmp.resource.slug ++ " (" ++ lang ++ ") " ++ err)],
        by simp [cachePath], by simp [createCalls], by simp, by simp⟩
    | some bytes =>
      refine ⟨[Event.log (cmp.resource.slug ++ " (" ++ lang ++ ") " ++ err)],
        by simp [cachePath], by simp [createCalls], ?_, ?_⟩
      · intro path hp
        simp [cachePath] at hp
        simp [hp]
      · intro path h
        simp only [logf_files, setFile_files, emit_files]
        split <;> simp [h]

/-- Lines 99-120 create no file through `os.OpenFile`, remove none, and leave
every file as it was unless `ioutil.WriteFile` was called on its path. -/
theorem select_frame (env : Env P) (cmp : Component) (translations : Translations)
    (w : World P) :
    ∃ new, (select env cmp translations w).events = w.events ++ new ∧
      createCalls new = [] ∧
      (∀ path content, w.files path = some content →
        (select env cmp translations w).files path = some content ∨
        ∃ text, (path, text) ∈ fileWrites new) ∧
      (∀ path, w.files path ≠ none → (select env cmp translations w).files path ≠ none) := by
  cases hg : translations.get? lang with
  | none =>
    have hsel : select env cmp translations w
        = w.logf (cmp.resource.slug ++ ": " ++ lang ++ " not found") := by
      unfold select
      simp only [hg]
    rw [hsel]
    exact ⟨[Event.log (cmp.resource.slug ++ ": " ++ lang ++ " not found")],
      by simp, by simp [createCalls], fun path content h => Or.inl (by simpa using h),
      by simp⟩
  | some target =>
    obtain ⟨notes, hev, hcreate, hother, hkeep⟩ := dump_frame env cmp target w
    have hfiles := select_files env cmp translations w
    rw [hg] at hfiles
    simp only [] at hfiles
    have hchange : ∀ (tail : List Event) (path content : String),
        w.files path = some content →
        (dump env cmp target w).files path = some content ∨
        ∃ text, (path, text)
          ∈ fileWrites (Event.writeFile (cachePath env cmp) target :: notes ++ tail) := by
      intro tail path content h
      by_cases hp : path = cachePath env cmp
      · right
        exact ⟨target, by simp [fileWrites, hp]⟩
      · left
        rw [hother path hp, h]
    cases hdec : env.decodeTarget target with
    | none =>
      have hsel := (select_of_decoded env cmp translations w target hg hdec).1
      rw [hev] at hsel
      refine ⟨Event.writeFile (cachePath env cmp) target :: notes ++
        [Event.decodeTarget target, Event.parse cmp langCode,
          Event.log (closingLine env cmp translations target
            (env.parse w.parser cmp langCode).2)],
        by rw [hsel]; simp, by simp [createCalls, hcreate], ?_, ?_⟩
      · intro path content h
        rw [hfiles]
        exact hchange _ path content h
      · intro path h
        rw [hfiles]
        exact hkeep path h
    | some err =>
      have hsel := select_of_malformed env cmp translations w target err hg hdec
      rw [hev] at hsel
      refine ⟨Event.writeFile (cachePath env cmp) target :: notes ++
        [Event.decodeTarget target,
          Event.log (cmp.resource.slug ++ " (" ++ lang ++ ") " ++ err ++ "\n" ++ target)],
        by rw [hsel]; simp, by simp [createCalls, hcreate], ?_, ?_⟩
      · intro path content h
        rw [hfiles]
        exact hchange _ path content h
      · intro path h
        rw [hfiles]
        exact hkeep path h

/-- One iteration creates a file through `os.OpenFile` only where none was,
removes none, and leaves every file that was there as it was unless
`ioutil.WriteFile` was called on its path. -/
theorem iterate_frame (env : Env P) (cmp : Component) (w : World P) :
    ∃ new, (iterate env cmp w).events = w.events ++ new ∧
      (∀ path, w.files path ≠ none → path ∉ createCalls new) ∧
      (∀ path content, w.files path = some content →
        (iterate env cmp w).files path = some content ∨
        ∃ text, (path, text) ∈ fileWrites new) ∧
      (∀ path, w.files path ≠ none → (iterate env cmp w).files path ≠ none) := by
  obtain ⟨new1, hev1, hw1, hc1, hf1⟩ := resolve_frame env cmp w.tick
  rw [tick_events] at hev1
  have hexists1 : ∀ path, w.files path ≠ none →
      (resolve env cmp w.tick).1.files path ≠ none := by
    intro path h
    cases hc : w.files path with
    | none => exact absurd hc h
    | some content =>
      rw [hf1 path content hc]
      simp
  cases hres : (resolve env cmp w.tick).2 with
  | none =>
    rw [iterate_of_skipped env cmp w hres]
    exact ⟨new1, hev1, hc1, fun path content h => Or.inl (hf1 path content h), hexists1⟩
  | some translations =>
    rw [iterate_of_resolved env cmp w translations hres]
    obtain ⟨new2, hev2, hc2, hf2, hk2⟩ :=
      select_frame env cmp translations (resolve env cmp w.tick).1
    refine ⟨new1 ++ new2, by rw [hev2, hev1, List.append_assoc], ?_, ?_, ?_⟩
    · intro path h
      simp only [createCalls_append, hc2, List.append_nil]
      exact hc1 path h
    · intro path content h
      rcases hf2 path content (hf1 path content h) with h2 | ⟨text, h2⟩
      · exact Or.inl h2
      · exact Or.inr ⟨text, by simp [h2]⟩
    · intro path h
      exact hk2 path (hexists1 path h)

/-- The loop creates a file through `os.OpenFile` only where none was,
removes none, and leaves every file that was there as it was unless
`ioutil.WriteFile` was called on its path. -/
theorem workerLoop_frame (env : Env P) (cmps : List Component) (w : World P) :
    ∃ new, (workerLoop env cmps w).events = w.events ++ new ∧
      (∀ path, w.files path ≠ none → path ∉ createCalls new) ∧
      (∀ path content, w.files path = some content →
        (workerLoop env cmps w).files path = some content ∨
        ∃ text, (path, text) ∈ fileWrites new) ∧
      (∀ path, w.files path ≠ none → (workerLoop env cmps w).files path ≠ none) := by
  induction cmps generalizing w with
  | nil => exact ⟨[], by simp [workerLoop], by simp [createCalls],
      fun path content h => Or.inl h, fun path h => h⟩
  | cons cmp rest ih =>
    rw [workerLoop_cons]
    obtain ⟨new1, hev1, hc1, hf1, hk1⟩ := iterate_frame env cmp w
    obtain ⟨new2, hev2, hc2, hf2, hk2⟩ := ih (iterate env cmp w)
    refine ⟨new1 ++ new2, by rw [hev2, hev1, List.append_assoc], ?_, ?_, ?_⟩
    · intro path h
      simp only [createCalls_append, List.mem_append, not_or]
      exact ⟨hc1 path h, hc2 path (hk1 path h)⟩
    · intro path content h
      rcases hf1 path content h with h1 | ⟨text, h1⟩
      · rcases hf2 path content h1 with h2 | ⟨text, h2⟩
        · exact Or.inl h2
        · exact Or.inr ⟨text, by simp [h2]⟩
      · exact Or.inr ⟨text, by simp [h1]⟩
    · intro path h
      exact hk2 path (hk1 path h)

/-- The frame of the cache files: for every run of the loop and every cache
entry that exists before it, lines 74-80 never create or encode over it (the
cache file is created only where none was) and the entry is still there after
the run; its content after the run equals its content before unless the
plain-text write of line 104 was made on its path during the run. -/
theorem cache_entry_kept_unless_dumped (env : Env P) (cmps : List Component) (w : World P)
    (path content : String) (hfile : w.files path = some content) :
    path ∉ createCalls ((workerLoop env cmps w).events.drop w.events.length) ∧
    (workerLoop env cmps w).files path ≠ none ∧
    ((workerLoop env cmps w).files path = some content ∨
      ∃ text, (path, text)
        ∈ fileWrites ((workerLoop env cmps w).events.drop w.events.length)) := by
  obtain ⟨new, hev, hc, hf, hk⟩ := workerLoop_frame env cmps w
  have hne : w.files path ≠ none := by simp [hfile]
  rw [hev, List.drop_left]
  exact ⟨hc path hne, hk path hne, hf path content hfile⟩

/-- The frame at a concrete input: the cache file of `about` has no target
language, so line 104 is not reached for it and the file is as it was after
the run. -/
theorem cache_entry_kept_unless_dumped_witness :
    (Sample.world [("cache/intro", Sample.introFile), ("cache/about", Sample.aboutFile)]).files
      "cache/about" = some Sample.aboutFile ∧
    (workerLoop (Sample.env []) [Sample.intro, Sample.about]
      (Sample.world [("cache/intro", Sample.introFile), ("cache/about", Sample.aboutFile)])).files
      "cache/about" = some Sample.aboutFile := by
  refine ⟨by decide, ?_⟩
  rcases (cache_entry_kept_unless_dumped (Sample.env []) [Sample.intro, Sample.about]
    (Sample.world [("cache/intro", Sample.introFile), ("cache/about", Sample.aboutFile)])
    "cache/about" Sample.aboutFile (by decide)).2.2 with h | ⟨text, h⟩
  · exact h
  · have hw : fileWrites ((workerLoop (Sample.env []) [Sample.intro, Sample.about]
        (Sample.world [("cache/intro", Sample.introFile),
          ("cache/about", Sample.aboutFile)])).events.drop
        (Sample.world [("cache/intro", Sample.introFile),
          ("cache/about", Sample.aboutFile)]).events.length)
        = [("cache/intro", "[\x7b\"title\":\"你好\"\x7d]")] := by decide
    rw [hw] at h
    simp at h

/-- C3 at a failing input: the cache entry of `intro` exists before the run
and holds the JSON mapping; after the run it holds the bare target text, put
there by line 104.  Lines 85-93 can no longer read it: a second run over the
same files logs a decode error for `intro` and does not call `parser.Parse`
on it, nor does it fetch it again. -/
theorem cache_entry_overwritten :
    (Sample.world [("cache/intro", Sample.introFile)]).files "cache/intro"
      = some Sample.introFile ∧
    (workerLoop (Sample.env []) [Sample.intro]
      (Sample.world [("cache/intro", Sample.introFile)])).files "cache/intro"
      = some "[\x7b\"title\":\"你好\"\x7d]" ∧
    (workerLoop (Sample.env []) [Sample.intro]
      (Sample.world [("cache/intro", Sample.introFile)])).files "cache/intro"
      ≠ (Sample.world [("cache/intro", Sample.introFile)]).files "cache/intro" ∧
    parseCalls (workerLoop (Sample.env Sample.service) [Sample.intro]
      (Sample.world [("cache/intro", "[\x7b\"title\":\"你好\"\x7d]")])).events = [] ∧
    downloadCalls (workerLoop (Sample.env Sample.service) [Sample.intro]
      (Sample.world [("cache/intro", "[\x7b\"title\":\"你好\"\x7d]")])).events = [] ∧
    logged (workerLoop (Sample.env Sample.service) [Sample.intro]
      (Sample.world [("cache/intro", "[\x7b\"title\":\"你好\"\x7d]")])).events
      = ["intro: json: the input is not an object of strings"] := by
  refine ⟨by decide, by decide, by decide, by decide, by decide, by decide⟩

/-! ## One failure among fetched components -/

/-- The outcome of `os.Stat` depends on the file at the path only. -/
theorem stat_congr (env : Env P) (w v : World P) (path : String)
    (h : v.files path = w.files path) : stat env v path = stat env w path := by
  unfold stat
  rw [h]

/-- Lines 99-120 leave the counter as it is. -/
theorem select_count (env : Env P) (cmp : Component) (translations : Translations)
    (w : World P) : (select env cmp translations w).count = w.count := by
  have hd : ∀ text, (dump env cmp text w).count = w.count :=
    fun text => (dump_calls env cmp text w).2.2.2
  unfold select
  simp only []
  cases translations.get? lang with
  | none => rfl
  | some target =>
    simp only []
    cases env.decodeTarget target with
    | some err => simp [hd]
    | none =>
      simp only []
      generalize env.parse (((dump env cmp target w).emit (Event.decodeTarget target)).emit
        (Event.parse cmp langCode)).parser cmp langCode = r
      obtain ⟨p, outcome⟩ := r
      cases outcome with
      | some err => simp [hd]
      | none =>
        simp only []
        split <;> simp [hd]

/-- The iteration of a component that is fetched and for which every step
succeeds. -/
theorem iterate_of_success (env : Env P) (cmp : Component) (w : World P)
    (translations : Translations) (target : String)
    (hstat : stat env w (cachePath env cmp) = StatResult.notExist)
    (hok : Succeeds env cmp translations target) :
    parseCalls (iterate env cmp w).events = parseCalls w.events ++ [(cmp, "zh")] ∧
    logged (iterate env cmp w).events = logged w.events ++ [successLine env cmp] ∧
    downloadCalls (iterate env cmp w).events
      = downloadCalls w.events ++ [cmp.resource.slug] ∧
    (iterate env cmp w).count = w.count + 1 ∧
    (∀ path, path ≠ cachePath env cmp → (iterate env cmp w).files path = w.files path) := by
  obtain ⟨hfetch, hcreate, hencode, htarget, hwrite, hdec, hparse⟩ := hok
  have hstat2 : stat env w.tick (cachePath env cmp) = StatResult.notExist := hstat
  have hr := resolve_of_absent env cmp w.tick hstat2
  rw [hfetch] at hr
  simp only [hcreate, hencode] at hr
  have hres : (resolve env cmp w.tick).2 = some translations := by rw [hr]
  have hbody := iterate_of_resolved env cmp w translations hres
  have hsel := select_of_decoded env cmp translations (resolve env cmp w.tick).1 target
    htarget hdec
  have hfiles := select_files env cmp translations (resolve env cmp w.tick).1
  rw [htarget] at hfiles
  simp only [] at hfiles
  have hdump : dump env cmp target (resolve env cmp w.tick).1
      = (((resolve env cmp w.tick).1.emit (Event.writeFile (cachePath env cmp) target)).setFile
          (cachePath env cmp) target) := by
    unfold dump
    have hwrite2 : env.writeFault (env.join env.root cmp.resource.slug) target = none := hwrite
    simp only [hwrite2]
    rfl
  have hline : closingLine env cmp translations target
      (env.parse (resolve env cmp w.tick).1.parser cmp langCode).2 = successLine env cmp := by
    rw [hparse]
    unfold successLine
    rw [hfetch]
    simp [Translations.get, htarget]
  rw [hbody]
  refine ⟨?_, ?_, ?_, ?_, ?_⟩
  · rw [hsel.1, hdump, hr, langCode_eq]
    simp [parseCalls]
  · rw [hsel.1, hdump, hline, hr]
    simp [logged]
  · rw [hsel.1, hdump, hr]
    simp [downloadCalls]
  · rw [select_count, (resolve_calls env cmp w.tick).2.2.2, tick_count]
  · intro path hp
    rw [hfiles, hdump, hr]
    simp [hp]

/-- The iteration of a component whose fetch fails: one log line, and the
`continue` of line 72. -/
theorem iterate_of_fetch_failure (env : Env P) (cmp : Component) (w : World P)
    (err : String)
    (hstat : stat env w (cachePath env cmp) = StatResult.notExist)
    (hbad : env.download cmp.resource.slug = Except.error err) :
    iterate env cmp w
      = ((w.tick.emit (Event.stat (cachePath env cmp))).emit
          (Event.download cmp.resource.slug)).logf
          (cmp.resource.slug ++ ": " ++ env.red err) := by
  have hstat2 : stat env w.tick (cachePath env cmp) = StatResult.notExist := hstat
  have hr := resolve_of_absent env cmp w.tick hstat2
  rw [hbad] at hr
  unfold iterate body
  rw [hr]

/-- The loop over components that are fetched, have distinct cache paths and
for which every step succeeds. -/
theorem workerLoop_of_success (env : Env P) (cmps : List Component) (w : World P)
    (hpaths : (cmps.map (cachePath env)).Nodup)
    (hfresh : ∀ cmp ∈ cmps, stat env w (cachePath env cmp) = StatResult.notExist)
    (hgood : ∀ cmp ∈ cmps, ∃ translations target, Succeeds env cmp translations target) :
    parseCalls (workerLoop env cmps w).events
      = parseCalls w.events ++ cmps.map (fun cmp => (cmp, "zh")) ∧
    logged (workerLoop env cmps w).events
      = logged w.events ++ cmps.map (successLine env) ∧
    downloadCalls (workerLoop env cmps w).events
      = downloadCalls w.events ++ cmps.map (fun cmp => cmp.resource.slug) ∧
    (workerLoop env cmps w).count = w.count + cmps.length ∧
    (∀ path, path ∉ cmps.map (cachePath env) →
      (workerLoop env cmps w).files path = w.files path) := by
  induction cmps generalizing w with
  | nil => simp [workerLoop]
  | cons cmp rest ih =>
    rw [workerLoop_cons]
    obtain ⟨translations, target, hok⟩ := hgood cmp (List.mem_cons_self _ _)
    obtain ⟨h1, h2, h3, h4, h5⟩ :=
      iterate_of_success env cmp w translations target (hfresh cmp (List.mem_cons_self _ _)) hok
    rw [List.map_cons, List.nodup_cons] at hpaths
    have hfresh2 : ∀ c ∈ rest, stat env (iterate env cmp w) (cachePath env c)
        = StatResult.notExist := by
      intro c hc
      have hne : cachePath env c ≠ cachePath env cmp := by
        intro heq
        exact hpaths.1 (heq ▸ List.mem_map_of_mem (cachePath env) hc)
      rw [stat_congr env w (iterate env cmp w) _ (h5 _ hne)]
      exact hfresh c (List.mem_cons_of_mem _ hc)
    obtain ⟨i1, i2, i3, i4, i5⟩ := ih (iterate env cmp w) hpaths.2 hfresh2
      (fun c hc => hgood c (List.mem_cons_of_mem _ hc))
    refine ⟨?_, ?_, ?_, ?_, ?_⟩
    · rw [i1, h1]
      simp
    · rw [i2, h2]
      simp
    · rw [i3, h3]
      simp
    · rw [i4, h4]
      simp
      omega
    · intro path hp
      simp only [List.map_cons, List.mem_cons, not_or] at hp
      rw [i5 path hp.2, h5 path hp.1]

/-- C1: in a sequence of components with no cache entries beforehand, each
with its own cache path, in which the fetch of exactly one component fails
and every step succeeds for every other one (fetch, cache write, target
language present, plain-text write, decode as a list of records,
`parser.Parse`), the loop runs to the end of the sequence: every component is
counted and fetched, `parser.Parse` is called on exactly the other components,
in the order of the sequence and with the code "zh", and never on the failing
one, and the log holds exactly one failure line, the slug of the failing
component with its error, among the verdicts of the comparison for the
others. -/
theorem one_fetch_failure_isolated (env : Env P) (before after : List Component)
    (bad : Component) (err : String) (w : World P)
    (hpaths : ((before ++ bad :: after).map (cachePath env)).Nodup)
    (hfresh : ∀ cmp ∈ before ++ bad :: after,
      stat env w (cachePath env cmp) = StatResult.notExist)
    (hbad : env.download bad.resource.slug = Except.error err)
    (hgood : ∀ cmp ∈ before ++ after,
      ∃ translations target, Succeeds env cmp translations target) :
    parseCalls (workerLoop env (before ++ bad :: after) w).events
      = parseCalls w.events ++ (before ++ after).map (fun cmp => (cmp, "zh")) ∧
    logged (workerLoop env (before ++ bad :: after) w).events
      = logged w.events ++ before.map (successLine env)
        ++ [bad.resource.slug ++ ": " ++ env.red err] ++ after.map (successLine env) ∧
    (∀ cmp ∈ before ++ after,
      successLine env cmp
        = env.green "translated" ++ " " ++ "zh-Hant" ++ " - " ++ cmp.resource.slug ∨
      successLine env cmp
        = env.red "not translated" ++ " " ++ "zh-Hant" ++ " - " ++ cmp.resource.slug) ∧
    downloadCalls (workerLoop env (before ++ bad :: after) w).events
      = downloadCalls w.events
        ++ (before ++ bad :: after).map (fun cmp => cmp.resource.slug) ∧
    (workerLoop env (before ++ bad :: after) w).count
      = w.count + (before ++ bad :: after).length := by
  rw [List.map_append, List.map_cons, List.nodup_append] at hpaths
  obtain ⟨hnb, hnrest, hdisj⟩ := hpaths
  rw [List.nodup_cons] at hnrest
  have hsplit : workerLoop env (before ++ bad :: after) w
      = workerLoop env after (iterate env bad (workerLoop env before w)) := by
    unfold workerLoop
    rw [List.foldl_append, List.foldl_cons]
  obtain ⟨b1, b2, b3, b4, b5⟩ := workerLoop_of_success env before w hnb
    (fun c hc => hfresh c (List.mem_append_left _ hc))
    (fun c hc => hgood c (List.mem_append_left _ hc))
  have hnotin : ∀ c ∈ bad :: after, cachePath env c ∉ before.map (cachePath env) := by
    intro c hc hin
    exact hdisj hin (List.mem_map_of_mem (cachePath env) hc)
  have hstatBad : stat env (workerLoop env before w) (cachePath env bad)
      = StatResult.notExist := by
    rw [stat_congr env w _ _ (b5 _ (hnotin bad (List.mem_cons_self _ _)))]
    exact hfresh bad (List.mem_append_right _ (List.mem_cons_self _ _))
  have hit := iterate_of_fetch_failure env bad (workerLoop env before w) err hstatBad hbad
  have hfreshAfter : ∀ c ∈ after, stat env (iterate env bad (workerLoop env before w))
      (cachePath env c) = StatResult.notExist := by
    intro c hc
    have hf : (iterate env bad (workerLoop env before w)).files (cachePath env c)
        = w.files (cachePath env c) := by
      rw [hit]
      simp only [logf_files, emit_files, tick_files]
      exact b5 _ (hnotin c (List.mem_cons_of_mem _ hc))
    rw [stat_congr env w _ _ hf]
    exact hfresh c (List.mem_append_right _ (List.mem_cons_of_mem _ hc))
  obtain ⟨a1, a2, a3, a4, _⟩ := workerLoop_of_success env after
    (iterate env bad (workerLoop env before w)) hnrest.2 hfreshAfter
    (fun c hc => hgood c (List.mem_append_right _ hc))
  refine ⟨?_, ?_, ?_, ?_, ?_⟩
  · rw [hsplit, a1, hit]
    simp [parseCalls, b1]
  · rw [hsplit, a2, hit]
    simp [logged, b2]
  · intro cmp hc
    obtain ⟨translations, target, hok⟩ := hgood cmp hc
    unfold successLine
    rw [hok.1]
    simp only [closingLine]
    have hlang : lang = "zh-Hant" := rfl
    rw [hlang]
    by_cases hne : translations.get "zh-Hant" ≠ translations.get "en"
    · left
      rw [if_pos hne]
    · right
      rw [if_neg hne]
  · rw [hsplit, a3, hit]
    simp [downloadCalls, b3]
  · rw [hsplit, a4, hit]
    simp [b4]
    omega

/-- The witness of C1: of `intro`, `about` and `faq`, none cached, the
service lacks `about`; `parser.Parse` is called on `intro` and `faq`, and the
log holds the one failure line between the two verdicts. -/
theorem one_fetch_failure_isolated_witness :
    (([Sample.intro] ++ Sample.about :: [Sample.faq]).map
      (cachePath (Sample.env [("intro", Sample.introSet), ("faq", Sample.faqSet)]))).Nodup ∧
    (Sample.env [("intro", Sample.introSet), ("faq", Sample.faqSet)]).download "about"
      = Except.error "404 Not Found" ∧
    parseCalls (workerLoop (Sample.env [("intro", Sample.introSet), ("faq", Sample.faqSet)])
      ([Sample.intro] ++ Sample.about :: [Sample.faq]) (Sample.world [])).events
      = [(Sample.intro, "zh"), (Sample.faq, "zh")] ∧
    logged (workerLoop (Sample.env [("intro", Sample.introSet), ("faq", Sample.faqSet)])
      ([Sample.intro] ++ Sample.about :: [Sample.faq]) (Sample.world [])).events
      = ["translated zh-Hant - intro", "about: 404 Not Found",
         "not translated zh-Hant - faq"] := by
  have hgood : ∀ cmp ∈ [Sample.intro] ++ [Sample.faq], ∃ translations target,
      Succeeds (Sample.env [("intro", Sample.introSet), ("faq", Sample.faqSet)]) cmp
        translations target := by
    intro cmp hc
    simp only [List.singleton_append, List.mem_cons, List.mem_singleton, List.not_mem_nil,
      or_false] at hc
    rcases hc with rfl | rfl
    · exact ⟨Sample.introSet, "[\x7b\"title\":\"你好\"\x7d]",
        by rfl, by rfl, by rfl, by decide, by rfl, by decide, fun _ => rfl⟩
    · exact ⟨Sample.faqSet, "[\x7b\"title\":\"FAQ\"\x7d]",
        by rfl, by rfl, by rfl, by decide, by rfl, by decide, fun _ => rfl⟩
  have h := one_fetch_failure_isolated
    (Sample.env [("intro", Sample.introSet), ("faq", Sample.faqSet)])
    [Sample.intro] [Sample.faq] Sample.about "404 Not Found" (Sample.world [])
    (by decide) (by decide) (by rfl) hgood
  exact ⟨by decide, by rfl, h.1.trans (by decide), h.2.1.trans (by decide)⟩

/-! ## The worker goroutine and the main path: what holds of every run -/

/-- The walk calls neither `parser.Parse` nor anything but `utils.WriteCmp`
and the logger. -/
theorem walk_parseCalls (env : Env P) (tree : Tree) (w : World P) :
    parseCalls (walk env tree w).events = parseCalls w.events := by
  rw [walk_eq, printAll_events, parseCalls_append]
  have h : ∀ k nodes, parseCalls (specTrace env k nodes) = [] := by
    intro k nodes
    induction nodes generalizing k with
    | nil => rfl
    | cons node nodes ih => simp [specTrace, parseCalls, ih]
  rw [h]
  simp

/-- An iteration calls `parser.Parse` on its own component or not at all. -/
theorem body_parseCalls (env : Env P) (cmp : Component) (w : World P) :
    ∃ extra, parseCalls (body env cmp w).events = parseCalls w.events ++ extra ∧
      ∀ call ∈ extra, call = (cmp, "zh") := by
  have hcalls := (resolve_calls env cmp w).1
  unfold body
  generalize resolve env cmp w = r at hcalls
  obtain ⟨w1, o⟩ := r
  simp only at hcalls
  cases o with
  | none => exact ⟨[], by simp [hcalls], by simp⟩
  | some translations =>
    simp only []
    rw [select_parseCalls, hcalls]
    refine ⟨_, rfl, ?_⟩
    intro call hc
    cases hg : translations.get? lang with
    | none => simp [hg] at hc
    | some target =>
      cases hd : env.decodeTarget target with
      | some err => simp [hg, hd] at hc
      | none =>
        simp [hg, hd] at hc
        rw [hc, langCode_eq]

/-- The components begun include those begun earlier. -/
theorem mem_take_succ {α : Type} (xs : List α) (m : Nat) (x : α) (h : x ∈ xs.take m) :
    x ∈ xs.take (m + 1) := by
  induction xs generalizing m with
  | nil => simp at h
  | cons y ys ih =>
    cases m with
    | zero => simp at h
    | succ m =>
      simp only [List.take_succ_cons, List.mem_cons] at h ⊢
      rcases h with h | h
      · exact Or.inl h
      · exact Or.inr (ih m h)

/-- The component at a position is among those up to that position. -/
theorem mem_take_of_getElem? {α : Type} (xs : List α) (i : Nat) (x : α)
    (h : xs[i]? = some x) : x ∈ xs.take (i + 1) := by
  induction xs generalizing i with
  | nil => simp at h
  | cons y ys ih =>
    cases i with
    | zero =>
      simp at h
      simp [h]
    | succ i =>
      simp only [List.getElem?_cons_succ] at h
      simp only [List.take_succ_cons, List.mem_cons]
      exact Or.inr (ih i h)

/-- The state before the goroutine is started has the invariant. -/
theorem inv_init (cmps : List Component) (w : World P) : Run.Inv cmps w (Run.init w) := by
  refine ⟨Nat.zero_le _, ?_, ?_, ?_, ?_, ?_⟩
  · intro K h
    simp [Run.init] at h
  · intro call h
    exact Or.inl h
  · intro calls h
    simp [Run.init] at h
  · intro _ h
    simp [Run.init] at h
  · intro h
    simp [Run.init] at h

/-- Every action keeps the invariant. -/
theorem inv_step (env : Env P) (cmps : List Component) (w : World P) (s t : Run P)
    (a : Action) (hinv : Run.Inv cmps w s) (hstep : Run.step env cmps s a = some t) :
    Run.Inv cmps w t := by
  obtain ⟨h1, h2, h3, h4, h5, h6⟩ := hinv
  have hgrow : ∀ call, (call ∈ parseCalls w.events ∨
      call ∈ (cmps.take s.started).map (fun cmp => (cmp, "zh"))) →
      (call ∈ parseCalls w.events ∨
        call ∈ (cmps.take (s.started + 1)).map (fun cmp => (cmp, "zh"))) := by
    intro call h
    rcases h with h | h
    · exact Or.inl h
    · right
      rw [List.mem_map] at h ⊢
      obtain ⟨cmp, hc, rfl⟩ := h
      exact ⟨cmp, mem_take_succ _ _ _ hc, rfl⟩
  cases a with
  | start =>
    unfold Run.step at hstep
    simp only [] at hstep
    split at hstep
    · rename_i hcond
      simp only [Option.some.injEq] at hstep
      subst hstep
      refine ⟨hcond.2.2, ?_, ?_, ?_, ?_, ?_⟩
      · intro K hK
        exact Nat.le_succ_of_le (h2 K hK)
      · intro call hc
        exact hgrow call (h3 call hc)
      · intro calls hcalls call hc
        exact hgrow call (h4 calls hcalls call hc)
      · intro hi hp
        have := (h5 hi hp).1
        have hlt := hcond.2.2
        omega
      · intro _
        exact Nat.succ_pos _
    · simp at hstep
  | finish =>
    unfold Run.step at hstep
    simp only [] at hstep
    split at hstep
    · rename_i hcond
      cases hget : cmps[s.started - 1]? with
      | none => simp [hget] at hstep
      | some cmp =>
        simp only [hget, Option.some.injEq] at hstep
        subst hstep
        have hpos := h6 hcond.2
        have hmem : cmp ∈ cmps.take s.started := by
          have := mem_take_of_getElem? cmps (s.started - 1) cmp hget
          have he : s.started - 1 + 1 = s.started := by omega
          rwa [he] at this
        refine ⟨h1, h2, ?_, h4, ?_, ?_⟩
        · intro call hc
          obtain ⟨extra, hev, hex⟩ := body_parseCalls env cmp s.world
          simp only [] at hc
          rw [hev, List.mem_append] at hc
          rcases hc with hc | hc
          · exact h3 call hc
          · right
            rw [hex call hc]
            exact List.mem_map_of_mem _ hmem
        · intro hi hp
          exact ⟨(h5 hi hp).1, rfl⟩
        · intro h
          simp at h
    · simp at hstep
  | notify =>
    unfold Run.step at hstep
    simp only [] at hstep
    split at hstep
    · rename_i hcond
      simp only [Option.some.injEq] at hstep
      subst hstep
      exact ⟨h1, h2, h3, h4, fun _ _ => ⟨hcond.2.2, hcond.2.1⟩, h6⟩
    · simp at hstep
  | interrupt =>
    unfold Run.step at hstep
    simp only [] at hstep
    split at hstep
    · simp only [Option.some.injEq] at hstep
      subst hstep
      refine ⟨h1, ?_, h3, h4, ?_, h6⟩
      · intro K hK
        simp only [Option.some.injEq] at hK
        exact Nat.le_of_eq hK.symm
      · intro hi
        simp at hi
    · simp at hstep
  | save =>
    unfold Run.step at hstep
    simp only [] at hstep
    split at hstep
    · rename_i hcond
      simp only [Option.some.injEq] at hstep
      subst hstep
      refine ⟨h1, h2, ?_, ?_, ?_, h6⟩
      · intro call hc
        simp [parseCalls] at hc
        exact h3 call hc
      · intro calls hcalls call hc
        simp only [Option.some.injEq] at hcalls
        subst hcalls
        exact h3 call hc
      · intro hi _
        exact h5 hi (by rw [hcond]; simp)
    · simp at hstep
  | walkAll =>
    unfold Run.step at hstep
    simp only [] at hstep
    split at hstep
    · rename_i hcond
      simp only [Option.some.injEq] at hstep
      subst hstep
      refine ⟨h1, h2, ?_, h4, ?_, h6⟩
      · intro call hc
        simp only [walk_parseCalls] at hc
        exact h3 call hc
      · intro hi _
        exact h5 hi (by rw [hcond]; simp)
    · simp at hstep

/-- Every state a run reaches has the invariant. -/
theorem inv_exec (env : Env P) (cmps : List Component) (w : World P) (acts : List Action)
    (s t : Run P) (hinv : Run.Inv cmps w s) (hrun : Run.exec env cmps s acts = some t) :
    Run.Inv cmps w t := by
  induction acts generalizing s with
  | nil =>
    simp only [Run.exec, Option.some.injEq] at hrun
    subst hrun
    exact hinv
  | cons a acts ih =>
    simp only [Run.exec] at hrun
    cases hstep : Run.step env cmps s a with
    | none => simp [hstep] at hrun
    | some u =>
      simp only [hstep] at hrun
      exact ih u (inv_step env cmps w s u a hinv hstep) hrun

/-- C5, as the code has it: in every state a run of the two goroutines
reaches, at most all components have been started; if the interrupt was
delivered on `quit` after K components had been started, at least K have
been started, and the worker loop, which never reads `quit`, can still start
the next component as long as the main path has not returned; the tree the
walk ranges over holds contributions only of components started so far; and
when no interrupt was delivered the main path leaves `<-quit` only once every
component has been started and finished. -/
theorem interrupt_leaves_worker_running (env : Env P) (cmps : List Component)
    (w : World P) (acts : List Action) (s : Run P)
    (hrun : Run.exec env cmps (Run.init w) acts = some s) :
    s.started ≤ cmps.length ∧
    (∀ K, s.interruptAt = some K → K ≤ s.started) ∧
    (∀ calls, s.treeFrom = some calls → ∀ call ∈ calls,
      call ∈ parseCalls w.events ∨
      call ∈ (cmps.take s.started).map (fun cmp => (cmp, "zh"))) ∧
    (s.interruptAt = none → s.phase ≠ MainPhase.waiting →
      s.started = cmps.length ∧ s.inFlight = false) ∧
    (s.phase ≠ MainPhase.returned → s.inFlight = false → s.started < cmps.length →
      ∃ t, Run.step env cmps s Action.start = some t ∧
        t.started = s.started + 1 ∧ t.interruptAt = s.interruptAt) := by
  obtain ⟨h1, h2, _, h4, h5, _⟩ := inv_exec env cmps w acts (Run.init w) s (inv_init cmps w) hrun
  refine ⟨h1, h2, h4, h5, ?_⟩
  intro hp hf hlt
  refine ⟨{ s with world := s.world.tick, started := s.started + 1, inFlight := true },
    ?_, rfl, rfl⟩
  unfold Run.step
  simp only []
  rw [if_pos ⟨hp, hf, hlt⟩]

/-- The witness of C5: the run `lateSave` reaches a state in which the
interrupt was delivered after one component had been started, and at least
one has been started there. -/
theorem interrupt_leaves_worker_running_witness :
    Run.exec (Sample.env Sample.service) [Sample.intro, Sample.faq]
      (Run.init (Sample.world [])) Sample.lateSave = some Sample.lateSaved ∧
    Sample.lateSaved.interruptAt = some 1 ∧
    1 ≤ Sample.lateSaved.started :=
  ⟨by rfl, by rfl,
    (interrupt_leaves_worker_running (Sample.env Sample.service) [Sample.intro, Sample.faq]
      (Sample.world []) Sample.lateSave Sample.lateSaved (by rfl)).2.1 1 (by rfl)⟩

/-- C5 as stated fails: with two components, the interrupt is delivered on
`quit` after one has been started (K = 1); the worker loop does not look at
`quit`, so it finishes the first component and starts and finishes the second
before the main path reads the tree: two components have been started, and
the tree the walk ranges over comes from the `parser.Parse` calls of both. -/
theorem worker_starts_after_interrupt :
    ∃ s, Run.exec (Sample.env Sample.service) [Sample.intro, Sample.faq]
        (Run.init (Sample.world [])) Sample.lateSave = some s ∧
      s.interruptAt = some 1 ∧
      s.started = 2 ∧
      s.phase = MainPhase.walking ∧
      s.treeFrom = some [(Sample.intro, "zh"), (Sample.faq, "zh")] ∧
      (s.tree.flatten.map (fun cat => cat.path)) = ["intro.md", "faq.md"] :=
  ⟨Sample.lateSaved, by rfl, by rfl, by rfl, by rfl, by decide, by decide⟩

end Tent
